import Mathlib

/-!
Verification model of the FlowForge refactor coordination core.

This file gives a shallow embedding, in Lean 4, of the Python modules
`forge/refactor/state.py`, `forge/refactor/signals.py`,
`forge/refactor/orchestrator.py`, `forge/refactor/audit_agent.py` and
`forge/refactor/session.py`, together with theorems about the embedded
definitions.

Modelling conventions:
* Python `dict[str, T]` values (which preserve insertion order and have
  unique keys) are modelled as association lists `List (String × T)`
  together with `dictGet` / `dictSet` below.
* JSON documents are modelled by the inductive type `Json`; writing a
  Python object with `json.dump` and reading it back with `json.load` is
  the identity on this abstract syntax, so `save`/`load` of a state is
  modelled as `to_dict`/`from_dict` on `Json` values.
* Wall-clock readings (`datetime.now()`) are passed in explicitly: either
  as an opaque ISO-format `String` (state module, where timestamps are
  only stored), or as a structured `DateTime` value (signals module,
  where the code formats timestamps into file names).
* Exceptions are modelled with `Except String`; the carried string is the
  message the Python code puts into the raised `ValueError`.
-/

namespace FlowForge

/-- Abstract syntax of JSON documents (the image of `json.dump`/`json.load`). -/
inductive Json where
  | null : Json
  | bool : Bool → Json
  | str : String → Json
  | num : Int → Json
  | arr : List Json → Json
  | obj : List (String × Json) → Json

/-- Lookup in a Python-dict modelled as an association list (`d.get(k)` / `k in d`). -/
def dictGet : List (String × α) → String → Option α
  | [], _ => none
  | p :: rest, k => if p.1 = k then some p.2 else dictGet rest k

/-- Python-dict assignment `d[k] = v`: update in place if the key exists
(keeping its position, as CPython dicts do), else append a new entry. -/
def dictSet : List (String × α) → String → α → List (String × α)
  | [], k, v => [(k, v)]
  | p :: rest, k, v => if p.1 = k then (k, v) :: rest else p :: dictSet rest k v

/-- Lookup of a field in a JSON object (`data["k"]` / `data.get("k")`);
`none` both when the document is not an object and when the key is absent. -/
def Json.get : Json → String → Option Json
  | .obj m, k => dictGet m k
  | _, _ => none

namespace State

/-- `RefactorStatus` from `state.py`: status of an overall refactor. -/
inductive RefactorStatus where
  | planning
  | executing
  | paused
  | completed
deriving DecidableEq, Repr

/-- The `.value` string of a `RefactorStatus` member. -/
def RefactorStatus.value : RefactorStatus → String
  | .planning => "planning"
  | .executing => "executing"
  | .paused => "paused"
  | .completed => "completed"

/-- `RefactorStatus(s)`: parse a value string, failing on anything else
(Python raises `ValueError`). -/
def RefactorStatus.ofValue : String → Option RefactorStatus
  | "planning" => some .planning
  | "executing" => some .executing
  | "paused" => some .paused
  | "completed" => some .completed
  | _ => none

/-- `SessionStatus` from `state.py`: status of a single execution session. -/
inductive SessionStatus where
  | pending
  | in_progress
  | completed
  | needs_revision
deriving DecidableEq, Repr

/-- The `.value` string of a `SessionStatus` member. -/
def SessionStatus.value : SessionStatus → String
  | .pending => "pending"
  | .in_progress => "in_progress"
  | .completed => "completed"
  | .needs_revision => "needs_revision"

/-- `SessionStatus(s)`: parse a value string. -/
def SessionStatus.ofValue : String → Option SessionStatus
  | "pending" => some .pending
  | "in_progress" => some .in_progress
  | "completed" => some .completed
  | "needs_revision" => some .needs_revision
  | _ => none

/-- `AuditResult` from `state.py`: result of an audit review. -/
inductive AuditResult where
  | pending
  | passed
  | failed
deriving DecidableEq, Repr

/-- The `.value` string of an `AuditResult` member. -/
def AuditResult.value : AuditResult → String
  | .pending => "pending"
  | .passed => "passed"
  | .failed => "failed"

/-- `AuditResult(s)`: parse a value string. -/
def AuditResult.ofValue : String → Option AuditResult
  | "pending" => some .pending
  | "passed" => some .passed
  | "failed" => some .failed
  | _ => none

/-- `SessionState` dataclass from `state.py`. -/
structure SessionState where
  session_id : String
  status : SessionStatus
  started_at : Option String
  completed_at : Option String
  commit_hash : Option String
  audit_result : AuditResult
  notes : String
  iteration_count : Int
deriving DecidableEq, Repr

/-- The dataclass field defaults: `SessionState(session_id=id)`. -/
def SessionState.new (session_id : String) : SessionState :=
  { session_id := session_id
    status := .pending
    started_at := none
    completed_at := none
    commit_hash := none
    audit_result := .pending
    notes := ""
    iteration_count := 0 }

/-- `SessionState.to_dict`. -/
def SessionState.to_dict (s : SessionState) : Json :=
  .obj
    [("session_id", .str s.session_id),
     ("status", .str s.status.value),
     ("started_at", match s.started_at with | some t => .str t | none => .null),
     ("completed_at", match s.completed_at with | some t => .str t | none => .null),
     ("commit_hash", match s.commit_hash with | some h => .str h | none => .null),
     ("audit_result", .str s.audit_result.value),
     ("notes", .str s.notes),
     ("iteration_count", .num s.iteration_count)]

/-- `SessionState.from_dict`; `none` models the `KeyError`/`ValueError`
raised on a missing `session_id` key or an unrecognised enum value. -/
def SessionState.from_dict (data : Json) : Option SessionState := do
  let sid ← data.get "session_id"
  let .str sid := sid | none
  let status ← SessionStatus.ofValue (match data.get "status" with
    | some (.str v) => v
    | _ => "pending")
  let started_at := match data.get "started_at" with
    | some (.str t) => some t
    | _ => none
  let completed_at := match data.get "completed_at" with
    | some (.str t) => some t
    | _ => none
  let commit_hash := match data.get "commit_hash" with
    | some (.str h) => some h
    | _ => none
  let audit_result ← AuditResult.ofValue (match data.get "audit_result" with
    | some (.str v) => v
    | _ => "pending")
  let notes := match data.get "notes" with
    | some (.str n) => n
    | _ => ""
  let iteration_count := match data.get "iteration_count" with
    | some (.num n) => n
    | _ => 0
  some
    { session_id := sid, status := status, started_at := started_at,
      completed_at := completed_at, commit_hash := commit_hash,
      audit_result := audit_result, notes := notes,
      iteration_count := iteration_count }

/-- `StateChange` dataclass from `state.py`: one audit-log entry. -/
structure StateChange where
  timestamp : String
  action : String
  details : List (String × Json)

/-- `StateChange.to_dict`. -/
def StateChange.to_dict (c : StateChange) : Json :=
  .obj
    [("timestamp", .str c.timestamp),
     ("action", .str c.action),
     ("details", .obj c.details)]

/-- `StateChange.from_dict`. -/
def StateChange.from_dict (data : Json) : Option StateChange := do
  let .str ts ← data.get "timestamp" | none
  let .str act ← data.get "action" | none
  let details := match data.get "details" with
    | some (.obj d) => d
    | _ => []
  some { timestamp := ts, action := act, details := details }

/-- `RefactorState` dataclass from `state.py`. -/
structure RefactorState where
  refactor_id : String
  status : RefactorStatus
  current_session : Option String
  sessions : List (String × SessionState)
  started_at : Option String
  updated_at : String
  completed_at : Option String
  history : List StateChange

/-- The dataclass field defaults: `RefactorState(refactor_id=rid)`; the
`updated_at` default factory reads the clock, passed here as `now`. -/
def RefactorState.new (refactor_id now : String) : RefactorState :=
  { refactor_id := refactor_id
    status := .planning
    current_session := none
    sessions := []
    started_at := none
    updated_at := now
    completed_at := none
    history := [] }

/-- `RefactorState._log_change`: append a `StateChange` to the history;
the entry's timestamp is the clock reading `now`. -/
def RefactorState.log_change (s : RefactorState) (action : String)
    (details : List (String × Json)) (now : String) : RefactorState :=
  { s with history := s.history ++ [{ timestamp := now, action := action, details := details }] }

/-- `RefactorState.to_dict`. -/
def RefactorState.to_dict (s : RefactorState) : Json :=
  .obj
    [("refactor_id", .str s.refactor_id),
     ("status", .str s.status.value),
     ("current_session", match s.current_session with | some c => .str c | none => .null),
     ("sessions", .obj (s.sessions.map (fun p => (p.1, p.2.to_dict)))),
     ("started_at", match s.started_at with | some t => .str t | none => .null),
     ("updated_at", .str s.updated_at),
     ("completed_at", match s.completed_at with | some t => .str t | none => .null),
     ("history", .arr (s.history.map StateChange.to_dict))]

/-- Parse the `sessions` sub-object of a serialized state. -/
def parseSessions : List (String × Json) → Option (List (String × SessionState))
  | [] => some []
  | (sid, sdata) :: rest => do
    let sess ← SessionState.from_dict sdata
    let tail ← parseSessions rest
    some ((sid, sess) :: tail)

/-- Parse the `history` array of a serialized state. -/
def parseHistory : List Json → Option (List StateChange)
  | [] => some []
  | h :: rest => do
    let c ← StateChange.from_dict h
    let tail ← parseHistory rest
    some (c :: tail)

/-- `RefactorState.from_dict`; the `updated_at` default factory reads the
clock, passed here as `now`. -/
def RefactorState.from_dict (data : Json) (now : String) : Option RefactorState := do
  let .str rid ← data.get "refactor_id" | none
  let status ← RefactorStatus.ofValue (match data.get "status" with
    | some (.str v) => v
    | _ => "planning")
  let current_session := match data.get "current_session" with
    | some (.str c) => some c
    | _ => none
  let sessions ← parseSessions (match data.get "sessions" with
    | some (.obj m) => m
    | _ => [])
  let history ← parseHistory (match data.get "history" with
    | some (.arr l) => l
    | _ => [])
  let started_at := match data.get "started_at" with
    | some (.str t) => some t
    | _ => none
  let updated_at := match data.get "updated_at" with
    | some (.str t) => t
    | _ => now
  let completed_at := match data.get "completed_at" with
    | some (.str t) => t
    | _ => none
  some
    { refactor_id := rid, status := status, current_session := current_session,
      sessions := sessions, started_at := started_at, updated_at := updated_at,
      completed_at := completed_at, history := history }

/-- `RefactorState.save(path)`: stamps `updated_at` with the current clock
reading and serializes; the pair is (state as mutated by `save`, document
written to disk). -/
def RefactorState.save (s : RefactorState) (now : String) : RefactorState × Json :=
  let s' := { s with updated_at := now }
  (s', s'.to_dict)

/-- `RefactorState.load(path)`: parse the document stored on disk. -/
def RefactorState.load (doc : Json) (now : String) : Option RefactorState :=
  RefactorState.from_dict doc now

/-- `RefactorState.add_session`: fails (`ValueError`) on a duplicate id. -/
def RefactorState.add_session (s : RefactorState) (session_id now : String) :
    Except String (RefactorState × SessionState) :=
  if (dictGet s.sessions session_id).isSome then
    .error ("Session already exists: " ++ session_id)
  else
    let session := SessionState.new session_id
    let s₁ := { s with sessions := s.sessions ++ [(session_id, session)] }
    let s₂ := s₁.log_change "session_added" [("session_id", .str session_id)] now
    .ok (s₂, session)

/-- `RefactorState.get_session`. -/
def RefactorState.get_session (s : RefactorState) (session_id : String) :
    Option SessionState :=
  dictGet s.sessions session_id

/-- `RefactorState.start_session`: creates the session if absent, marks it
in progress, stamps the start time and points `current_session` at it. -/
def RefactorState.start_session (s : RefactorState) (session_id now : String) :
    RefactorState × SessionState :=
  let s₀ :=
    if (dictGet s.sessions session_id).isNone then
      match s.add_session session_id now with
      | .ok (s', _) => s'
      | .error _ => s
    else s
  let session := (dictGet s₀.sessions session_id).getD (SessionState.new session_id)
  let old_status := session.status
  let session' := { session with status := .in_progress, started_at := some now }
  let s₁ :=
    { s₀ with
      sessions := dictSet s₀.sessions session_id session'
      current_session := some session_id
      status := .executing
      started_at := if s₀.started_at.isNone then some now else s₀.started_at }
  let s₂ := s₁.log_change "session_started"
    [("session_id", .str session_id),
     ("old_status", .str old_status.value),
     ("new_status", .str SessionStatus.in_progress.value)] now
  (s₂, session')

/-- `RefactorState.complete_session`: fails (`ValueError`) if the session
is absent; `commit_hash`/`notes` are stored only when truthy (non-empty). -/
def RefactorState.complete_session (s : RefactorState) (session_id : String)
    (commit_hash : Option String) (notes : String) (now : String) :
    Except String (RefactorState × SessionState) :=
  match dictGet s.sessions session_id with
  | none => .error ("Session not found: " ++ session_id)
  | some session =>
    let old_status := session.status
    let session' :=
      { session with
        status := .completed
        completed_at := some now
        commit_hash := match commit_hash with
          | some h => if h = "" then session.commit_hash else some h
          | none => session.commit_hash
        notes := if notes = "" then session.notes else notes }
    let s₁ := { s with sessions := dictSet s.sessions session_id session' }
    let s₂ := s₁.log_change "session_completed"
      [("session_id", .str session_id),
       ("old_status", .str old_status.value),
       ("commit_hash", match commit_hash with | some h => .str h | none => .null)] now
    .ok (s₂, session')

/-- `RefactorState.mark_needs_revision`: fails (`ValueError`) if the session
is absent; sets status `needs_revision` and audit result `failed`. -/
def RefactorState.mark_needs_revision (s : RefactorState) (session_id notes now : String) :
    Except String (RefactorState × SessionState) :=
  match dictGet s.sessions session_id with
  | none => .error ("Session not found: " ++ session_id)
  | some session =>
    let old_status := session.status
    let session' :=
      { session with
        status := .needs_revision
        audit_result := .failed
        notes := if notes = "" then session.notes else notes }
    let s₁ := { s with sessions := dictSet s.sessions session_id session' }
    let s₂ := s₁.log_change "session_needs_revision"
      [("session_id", .str session_id),
       ("old_status", .str old_status.value),
       ("notes", .str notes)] now
    .ok (s₂, session')

/-- `RefactorState.is_complete`: at least one session and all completed. -/
def RefactorState.is_complete (s : RefactorState) : Bool :=
  !s.sessions.isEmpty && s.sessions.all (fun p => p.2.status == .completed)

/-- `RefactorState.increment_iteration`: returns the new count, or `0`
without mutating anything when the session is absent. -/
def RefactorState.increment_iteration (s : RefactorState) (session_id now : String) :
    RefactorState × Int :=
  match dictGet s.sessions session_id with
  | some session =>
    let session' := { session with iteration_count := session.iteration_count + 1 }
    let s₁ := { s with sessions := dictSet s.sessions session_id session' }
    let s₂ := s₁.log_change "iteration_incremented"
      [("session_id", .str session_id),
       ("count", .num session'.iteration_count)] now
    (s₂, session'.iteration_count)
  | none => (s, 0)

/-- Observer: the status of a session, if tracked. -/
def RefactorState.statusOf (s : RefactorState) (session_id : String) :
    Option SessionStatus :=
  (dictGet s.sessions session_id).map (·.status)

/-- Observer: the completion stamp of a session, if tracked. -/
def RefactorState.completedAtOf (s : RefactorState) (session_id : String) :
    Option (Option String) :=
  (dictGet s.sessions session_id).map (·.completed_at)

/-- The §3 invariant of the spec: `current_session`, when non-null, is a
key of `sessions`. -/
def RefactorState.currentSessionOk (s : RefactorState) : Bool :=
  match s.current_session with
  | none => true
  | some cs => (dictGet s.sessions cs).isSome

end State

namespace Signals

/-- `SignalType` from `signals.py`. This enum has exactly the seven members
below; `signals.py` defines no escalation member. -/
inductive SignalType where
  | session_started
  | session_done
  | audit_passed
  | revision_needed
  | question
  | paused
  | resumed
deriving DecidableEq, Repr

/-- All members of the `SignalType` enum, in source order. -/
def SignalType.all : List SignalType :=
  [.session_started, .session_done, .audit_passed, .revision_needed,
   .question, .paused, .resumed]

/-- The `.value` string of a `SignalType` member. -/
def SignalType.value : SignalType → String
  | .session_started => "session_started"
  | .session_done => "session_done"
  | .audit_passed => "audit_passed"
  | .revision_needed => "revision_needed"
  | .question => "question"
  | .paused => "paused"
  | .resumed => "resumed"

/-- `SignalType(s)`: parse a value string (Python raises `ValueError`
on anything else, modelled as `none`). -/
def SignalType.ofValue : String → Option SignalType
  | "session_started" => some .session_started
  | "session_done" => some .session_done
  | "audit_passed" => some .audit_passed
  | "revision_needed" => some .revision_needed
  | "question" => some .question
  | "paused" => some .paused
  | "resumed" => some .resumed
  | _ => none

/-- The names bound at module level in `signals.py` (its public surface,
as re-exported by `forge/refactor/__init__.py`). -/
def signals_module_defs : List String :=
  ["SignalType", "Signal", "write_signal", "read_signals", "read_latest_signal",
   "clear_signals", "get_signals_dir", "signal_session_started",
   "signal_session_done", "signal_audit_passed", "signal_revision_needed",
   "signal_question"]

/-- The names `audit_agent.py` imports from `.signals` at lines 22–27. -/
def audit_agent_imports_from_signals : List String :=
  ["signal_audit_passed", "signal_revision_needed", "signal_escalation_needed",
   "get_signals_dir"]

/-- `Signal` dataclass from `signals.py`. The embedding types the
`session_id` and `timestamp` entries as strings (every signal the system
writes has string values there, and `read_signals` orders by the
`timestamp` string). -/
structure Signal where
  type : SignalType
  session_id : String
  timestamp : String
  payload : Json

/-- `Signal.to_dict`. -/
def Signal.to_dict (s : Signal) : Json :=
  .obj
    [("type", .str s.type.value),
     ("session_id", .str s.session_id),
     ("timestamp", .str s.timestamp),
     ("payload", s.payload)]

/-- What one call of `Signal.from_dict` does on a loaded JSON document.
`KeyError`/`ValueError` are the exceptions `read_signals` catches;
`TypeError` (subscripting a non-dict) is not caught and escapes the
reader; a dict whose `session_id` or `timestamp` value is not a string is
*accepted* unchecked — Python builds a `Signal` carrying those junk
values (no exception at parse time). -/
inductive FromDictResult where
  | ok : Signal → FromDictResult
  | okLoose : Json → FromDictResult
  | keyError : String → FromDictResult
  | valueError : FromDictResult
  | typeError : FromDictResult

/-- Whether `from_dict` returned a well-typed `Signal`. -/
def FromDictResult.isOk : FromDictResult → Bool
  | .ok _ => true
  | _ => false

/-- `Signal.from_dict`, step for step: `data["type"]` raises `TypeError`
when `data` is not a dict and `KeyError` when the key is missing;
`SignalType(...)` raises `ValueError` for any value that is not a member
(string or not); `data["session_id"]` / `data["timestamp"]` raise
`KeyError` when missing but accept values of any type;
`data.get("payload", {})` never raises. -/
def Signal.from_dict (data : Json) : FromDictResult :=
  match data with
  | .obj m =>
    match dictGet m "type" with
    | none => .keyError "type"
    | some tyv =>
      match tyv with
      | .str tys =>
        match SignalType.ofValue tys with
        | none => .valueError
        | some ty =>
          match dictGet m "session_id" with
          | none => .keyError "session_id"
          | some sidv =>
            match dictGet m "timestamp" with
            | none => .keyError "timestamp"
            | some tsv =>
              match sidv, tsv with
              | .str sid, .str ts =>
                .ok { type := ty, session_id := sid, timestamp := ts,
                      payload := (dictGet m "payload").getD (.obj []) }
              | _, _ => .okLoose data
      | _ => .valueError
  | _ => .typeError

/-- Strict lexicographic order on character lists by code point — the
order Python uses both for `str` comparison (`sorted` keys) and for the
byte-wise file-name ordering of a directory listing. -/
def lexLtb : List Char → List Char → Bool
  | [], [] => false
  | [], _ :: _ => true
  | _ :: _, [] => false
  | a :: as, b :: bs => if a = b then lexLtb as bs else decide (a.toNat < b.toNat)

/-- A wall-clock reading at the resolution `datetime.now()` provides. -/
structure DateTime where
  year : Nat
  month : Nat
  day : Nat
  hour : Nat
  minute : Nat
  second : Nat
  microsecond : Nat
deriving DecidableEq, Repr

/-- Field bounds under which each field fits its zero-padded width in the
`strftime`/`isoformat` renderings (true of every real clock reading). -/
def DateTime.bounded (d : DateTime) : Prop :=
  d.year < 10000 ∧ d.month < 100 ∧ d.day < 100 ∧ d.hour < 100 ∧
  d.minute < 100 ∧ d.second < 100 ∧ d.microsecond < 1000000

instance (d : DateTime) : Decidable d.bounded := by
  unfold DateTime.bounded; infer_instance

/-- Chronological strict order on clock readings (`datetime.__lt__`). -/
def dtLtb (a b : DateTime) : Bool :=
  if a.year ≠ b.year then decide (a.year < b.year)
  else if a.month ≠ b.month then decide (a.month < b.month)
  else if a.day ≠ b.day then decide (a.day < b.day)
  else if a.hour ≠ b.hour then decide (a.hour < b.hour)
  else if a.minute ≠ b.minute then decide (a.minute < b.minute)
  else if a.second ≠ b.second then decide (a.second < b.second)
  else decide (a.microsecond < b.microsecond)

/-- `n` decimal digits of `k`, most significant first, left-padded with
zeros (the rendering of a zero-padded `strftime` field). -/
def padChars : Nat → Nat → List Char
  | 0, _ => []
  | n + 1, k => Nat.digitChar (k / 10 ^ n) :: padChars n (k % 10 ^ n)

/-- `datetime.isoformat()`: `YYYY-MM-DDTHH:MM:SS`, with `.ffffff` appended
only when the microsecond field is non-zero. -/
def isoChars (d : DateTime) : List Char :=
  padChars 4 d.year ++ ('-' :: (padChars 2 d.month ++ ('-' :: (padChars 2 d.day ++
  ('T' :: (padChars 2 d.hour ++ (':' :: (padChars 2 d.minute ++ (':' :: (padChars 2 d.second ++
  (if d.microsecond = 0 then [] else '.' :: padChars 6 d.microsecond)))))))))))

/-- `datetime.isoformat()` as a string. -/
def isoformat (d : DateTime) : String := ⟨isoChars d⟩

/-- The file name `write_signal` builds:
`{timestamp.strftime('%Y%m%d_%H%M%S_%f')}_{signal_type.value}.json`. -/
def filenameChars (d : DateTime) (ty : SignalType) : List Char :=
  padChars 4 d.year ++ (padChars 2 d.month ++ (padChars 2 d.day ++
  ('_' :: (padChars 2 d.hour ++ (padChars 2 d.minute ++ (padChars 2 d.second ++
  ('_' :: (padChars 6 d.microsecond ++ ('_' :: (ty.value.data ++ ".json".data))))))))))

/-- The signal file name as a string. -/
def signalFileName (d : DateTime) (ty : SignalType) : String := ⟨filenameChars d ty⟩

/-- The content of one file in a signals directory: either text that is
not valid JSON, or a JSON document. -/
inductive FileData where
  | corrupt : FileData
  | jsonData : Json → FileData

/-- What the per-file body of `read_signals` does with one file. Its
`except (json.JSONDecodeError, KeyError, ValueError)` clause silently
skips exactly those three exceptions; a `TypeError` raised by
`Signal.from_dict` on valid-JSON non-object content escapes the loop and
crashes the reader; an accepted signal (well-typed or not) is appended to
the list handed to `sorted`. -/
inductive FileOutcome where
  | skipped : FileOutcome
  | raised : FileOutcome
  | accepted : Signal → FileOutcome
  | acceptedLoose : Json → FileOutcome

/-- Whether processing the file raises the uncaught `TypeError`. -/
def FileOutcome.isRaised : FileOutcome → Bool
  | .raised => true
  | _ => false

/-- Whether the file was accepted with a non-string `session_id` or
`timestamp`. -/
def FileOutcome.isLooseAccept : FileOutcome → Bool
  | .acceptedLoose _ => true
  | _ => false

/-- The per-file body of `read_signals`: `json.load` (a file that is not
valid JSON raises `JSONDecodeError`, which the except clause catches)
then `Signal.from_dict`, with `KeyError`/`ValueError` caught and skipped
and `TypeError` escaping. -/
def parse_signal_file : FileData → FileOutcome
  | .corrupt => .skipped
  | .jsonData j =>
    match Signal.from_dict j with
    | .ok s => .accepted s
    | .okLoose j' => .acceptedLoose j'
    | .keyError _ => .skipped
    | .valueError => .skipped
    | .typeError => .raised

/-- The signal a file contributes to the reader's list when the run
completes normally and every accepted file was well-typed. -/
def acceptedSignal (f : FileData) : Option Signal :=
  match parse_signal_file f with
  | .accepted s => some s
  | _ => none

/-- `write_signal`: read the clock, build the microsecond-stamped file
name and the signal value, and atomically place the serialized signal in
the directory under that name (`os.rename` replaces an existing file of
the same name). Returns the new directory content and the written path. -/
def write_signal (dir : List (String × FileData)) (now : DateTime)
    (signal_type : SignalType) (session_id : String) (payload : Json) :
    List (String × FileData) × String :=
  let filename := signalFileName now signal_type
  let signal : Signal :=
    { type := signal_type
      session_id := session_id
      timestamp := isoformat now
      payload := payload }
  (dictSet dir filename (.jsonData signal.to_dict), filename)

/-- The sort key relation of `read_signals`:
`sorted(signals, key=lambda s: s.timestamp)` compares timestamp strings. -/
def tsLe (a b : Signal) : Prop := lexLtb b.timestamp.data a.timestamp.data = false

instance : DecidableRel tsLe := fun a b => by
  unfold tsLe; infer_instance

/-- The list `read_signals` returns when its run completes normally:
skip the files whose exceptions the except clause catches, keep the
accepted well-typed signals, and stable-sort them by their timestamp
string. `List.insertionSort` here is a stable sort, hence produces the
same list as CPython's stable `sorted`. The full behaviour of the
reader, including its crash paths, is `read_signals_result` below. -/
def read_signals (entries : List FileData) : List Signal :=
  List.insertionSort tsLe (entries.filterMap acceptedSignal)

/-- The overall outcome of one `read_signals` call. -/
inductive ReadResult where
  | ok : List Signal → ReadResult
  | typeErrorRaised : ReadResult
  | illTypedAccepted : ReadResult

/-- `read_signals` in full: if any file is valid JSON but not a JSON
object, the per-file loop raises an uncaught `TypeError` whatever the
listing order (`typeErrorRaised`). Otherwise, if any accepted signal
carries a non-string `session_id` or `timestamp`, the outcome depends on
which key pairs `sorted` happens to compare — a `TypeError` against a
string timestamp, or a returned list containing the ill-typed signal —
and is left abstract here (`illTypedAccepted`); no theorem in this file
quantifies over that case. Otherwise the reader returns the sorted
well-typed signals. -/
def read_signals_result (entries : List FileData) : ReadResult :=
  if entries.any (fun f => (parse_signal_file f).isRaised) then .typeErrorRaised
  else if entries.any (fun f => (parse_signal_file f).isLooseAccept) then .illTypedAccepted
  else .ok (read_signals entries)

end Signals

namespace Orchestrator

open State

/-- `OrchestratorSession.advance_phase` from `orchestrator.py`. The input
`Option RefactorState` is what `read_state` finds on disk; `now` stands for
the wall-clock readings taken during the call (completion stamp and the
`updated_at` stamp written by `save_state`). Note that it assigns
`current_session`, `status` and `completed_at` directly, without logging
any `StateChange`, and sets `current_session := to_session` whether or not
`to_session` is a tracked session. -/
def advance_phase (st : Option RefactorState) (from_session to_session now : String) :
    Option RefactorState × Bool × String :=
  match st with
  | none => (none, false, "No refactor state found")
  | some state =>
    let state₁ :=
      match dictGet state.sessions from_session with
      | some session =>
        if session.status ≠ .completed then
          { state with
            sessions := dictSet state.sessions from_session
              { session with status := .completed, completed_at := some now } }
        else state
      | none => state
    let state₂ := { state₁ with current_session := some to_session }
    let state₃ := (state₂.save now).1
    (some state₃, true, "Advanced from " ++ from_session ++ " to " ++ to_session)

end Orchestrator

namespace Audit

open State Signals

/-- The ASCII whitespace recognised by `str.strip()` (the identifiers in
play are ASCII). -/
def isPySpace (c : Char) : Bool :=
  c = ' ' || c = '\t' || c = '\n' || c = '\r' || c = '\x0b' || c = '\x0c'

/-- `str.strip()` on a character list. -/
def pyStrip (l : List Char) : List Char :=
  ((l.dropWhile isPySpace).reverse.dropWhile isPySpace).reverse

/-- One character of `re.sub(r'[^a-zA-Z0-9._-]', '_', s)`. -/
def sanitizeChar (c : Char) : Char :=
  if c.isAlphanum || c = '.' || c = '_' || c = '-' then c else '_'

/-- Worker for `re.sub(r'\.\.+', '.', s)`: the flag records whether the
previous character was a dot, so every maximal run of dots keeps exactly
its first dot (a lone dot is unchanged; longer runs collapse to one). -/
def collapseDotsAux : Bool → List Char → List Char
  | _, [] => []
  | prevDot, c :: cs =>
    if c = '.' then
      if prevDot then collapseDotsAux true cs
      else '.' :: collapseDotsAux true cs
    else c :: collapseDotsAux false cs

/-- `re.sub(r'\.\.+', '.', s)`: collapse every maximal run of two or more
dots into a single dot. -/
def collapseDots (l : List Char) : List Char :=
  collapseDotsAux false l

/-- `sanitize_session_id` from `audit_agent.py`. -/
def sanitize_session_id (session_id : String) : String :=
  ⟨collapseDots (session_id.data.map sanitizeChar)⟩

/-- The session-id list built by `AuditAgent.__init__`:
`[sanitize_session_id(sid) for sid in session_ids if sid.strip()]`. -/
def processIds (session_ids : List String) : List String :=
  (session_ids.filter (fun sid => !(pyStrip sid.data).isEmpty)).map sanitize_session_id

/-- `AuditAgent.update_state_audit_result`: load the state document (a
no-op when there is none), set `audit_result` directly on each tracked
session named, and save. No `StateChange` is logged. -/
def update_state_audit_result (st : Option RefactorState) (session_ids : List String)
    (passed : Bool) (now : String) : Option RefactorState :=
  match st with
  | none => none
  | some state =>
    let state' := session_ids.foldl (fun s sid =>
      match dictGet s.sessions sid with
      | some session =>
        { s with
          sessions := dictSet s.sessions sid
            { session with audit_result := if passed then .passed else .failed } }
      | none => s) state
    some (state'.save now).1

/-- `signal_revision_needed` from `signals.py`, at the level of the signal
value it writes (file naming is handled in the read/write model below). -/
def revision_needed_signal (session_id : String) (issues suggestions : List String)
    (now : String) : Signal :=
  { type := .revision_needed
    session_id := session_id
    timestamp := now
    payload := .obj
      [("issues", .arr (issues.map Json.str)),
       ("suggestions", .arr (suggestions.map Json.str))] }

/-- The per-session loop at the end of `record_audit_fail`: increment the
iteration counter, then `mark_needs_revision` (whose `ValueError`
propagates out of the loop when a named session is absent). Returns the
mutated state together with the `"{sid}→#{count}"` strings. -/
def audit_fail_loop (s : RefactorState) (ids : List String) (notes now : String) :
    Except String (RefactorState × List String) :=
  match ids with
  | [] => .ok (s, [])
  | sid :: rest =>
    let (s₁, count) := s.increment_iteration sid now
    match s₁.mark_needs_revision sid notes now with
    | .error e => .error e
    | .ok (s₂, _) =>
      match audit_fail_loop s₂ rest notes now with
      | .error e => .error e
      | .ok (s₃, strs) => .ok (s₃, (sid ++ "→#" ++ toString count) :: strs)

/-- `record_audit_fail` from `audit_agent.py`. `st` is the state document
on disk (`none` both when the refactor directory or its `state.json` is
missing); the result carries the state as left on disk, the signals
written, and the `(success, message)` pair — or, in the `Except.error`
case, the exception that escapes to the caller. -/
def record_audit_fail (refactor_id : String) (session_ids : List String)
    (st : Option RefactorState) (issues suggestions : List String) (now : String) :
    Except String (Option RefactorState × List Signal × Bool × String) :=
  let ids := processIds session_ids
  match st with
  | none => .ok (none, [], false, "Refactor not found: " ++ refactor_id)
  | some state =>
    if ids.isEmpty then
      .ok (some state, [], false, "No valid session IDs provided")
    else
      let st₁ := (update_state_audit_result (some state) ids false now).getD state
      let sig := revision_needed_signal (String.intercalate ", " ids) issues suggestions now
      match audit_fail_loop st₁ ids (String.intercalate "; " issues) now with
      | .error e => .error e
      | .ok (st₂, iterStrs) =>
        let st₃ := (st₂.save now).1
        .ok (some st₃, [sig], true,
          "Audit FAILED for sessions: " ++ String.intercalate ", " ids ++
          ". Iteration: " ++ String.intercalate ", " iterStrs ++ ". Revision needed.")

end Audit

namespace Session

/-- The ASCII whitespace class of `re` (`\s`). -/
def isWs (c : Char) : Bool :=
  c = ' ' || c = '\t' || c = '\n' || c = '\r' || c = '\x0b' || c = '\x0c'

/-- `str.strip()` on a character list. -/
def strip (l : List Char) : List Char :=
  ((l.dropWhile isWs).reverse.dropWhile isWs).reverse

/-- Match a literal pattern prefix (case-sensitively), returning the rest. -/
def dropLit : List Char → List Char → Option (List Char)
  | [], s => some s
  | _ :: _, [] => none
  | p :: ps, c :: cs => if c = p then dropLit ps cs else none

/-- Match a literal pattern prefix under `re.IGNORECASE` (ASCII folding). -/
def dropLitCI : List Char → List Char → Option (List Char)
  | [], s => some s
  | _ :: _, [] => none
  | p :: ps, c :: cs => if c.toLower = p.toLower then dropLitCI ps cs else none

/-- Leftmost search: `re.search` tries the pattern at each successive
position and keeps the first success. -/
def scan (step : List Char → Option α) : List Char → Option α
  | [] => step []
  | c :: t =>
    match step (c :: t) with
    | some r => some r
    | none => scan step t

/-- First success over a list of backtracking alternatives. -/
def firstSome (f : α → Option β) : List α → Option β
  | [] => none
  | x :: xs =>
    match f x with
    | some r => some r
    | none => firstSome f xs

/-- The viable continuation points of `\s*\n` at the head of `l`: the
suffix after each `'\n'` inside the maximal whitespace run, collected in
textual order (the reverse is the greedy backtracking order). -/
def newlineStartsAux : List Char → List (List Char)
  | [] => []
  | c :: t =>
    if isWs c then
      if c = '\n' then t :: newlineStartsAux t else newlineStartsAux t
    else []

/-- `\s*\n` continuation points in greedy (longest-`\s*`-first) order. -/
def newlineStarts (l : List Char) : List (List Char) :=
  (newlineStartsAux l).reverse

/-- One bullet line, `[-*]\s+.+\n?`: marker, at least one whitespace
character, a non-empty body up to the line end, and the newline if there
is one. Returns (consumed text, rest). -/
def bulletLine (l : List Char) : Option (List Char × List Char) :=
  match l with
  | [] => none
  | c :: t =>
    if c = '-' || c = '*' then
      let ws := t.takeWhile isWs
      if ws.isEmpty then none
      else
        let afterWs := t.dropWhile isWs
        let body := afterWs.takeWhile (· ≠ '\n')
        if body.isEmpty then none
        else
          match afterWs.dropWhile (· ≠ '\n') with
          | '\n' :: r => some (c :: (ws ++ body ++ ['\n']), r)
          | r => some (c :: (ws ++ body), r)
    else none

/-- Further bullet lines; each `bulletLine` consumes at least one
character, so fuelling with the input length loses nothing. -/
def bulletsMoreF : Nat → List Char → List Char
  | 0, _ => []
  | fuel + 1, l =>
    match bulletLine l with
    | none => []
    | some (consumed, rest) => consumed ++ bulletsMoreF fuel rest

/-- The capture of `((?:[-*]\s+.+\n?)+)`: one or more bullet lines. -/
def bulletsRegion (l : List Char) : Option (List Char) :=
  match bulletLine l with
  | none => none
  | some (consumed, rest) => some (consumed ++ bulletsMoreF rest.length rest)

/-- `\.{0,3}` with exactly `k` dots. -/
def dropDots : Nat → List Char → Option (List Char)
  | 0, l => some l
  | k + 1, l =>
    match l with
    | '.' :: t => dropDots k t
    | _ => none

/-- The `\*\*ASK USER IF\.{0,3}\*\*` header of the ask-user regex, tried
at one position (`re.IGNORECASE`; the dot count is matched greedily). -/
def askHeader (l : List Char) : Option (List Char) := do
  let r₁ ← dropLitCI "**ask user if".data l
  firstSome (fun k =>
    match dropDots k r₁ with
    | some r => dropLit "**".data r
    | none => none) [3, 2, 1, 0]

/-- One position of `\*\*ASK USER IF\.{0,3}\*\*\s*\n((?:[-*]\s+.+\n?)+)`;
returns the capture group. -/
def askStep (l : List Char) : Option (List Char) := do
  let r ← askHeader l
  firstSome bulletsRegion (newlineStarts r)

/-- `re.sub(r"^[-*]\s+", "", line)`: strip one leading bullet marker and
the following whitespace run. -/
def dropBulletMarker (l : List Char) : List Char :=
  match l with
  | [] => []
  | c :: t =>
    if (c = '-' || c = '*') && !(t.takeWhile isWs).isEmpty then t.dropWhile isWs
    else l

/-- The ask-user post-processing loop of `from_markdown`: split the
capture into lines, strip each, drop the bullet marker, keep non-empty
results. -/
def parseAskItems (group : List Char) : List String :=
  ((strip group).splitOn '\n').foldr
    (fun line acc =>
      let line' := dropBulletMarker (strip line)
      if line'.isEmpty then acc else (⟨line'⟩ : String) :: acc) []

/-- One exit-criteria line, `[-*]\s+\[.\]\s+.+\n?` (the `.` between the
brackets matches any character except a newline). -/
def exitLine (l : List Char) : Option (List Char × List Char) :=
  match l with
  | [] => none
  | c :: t =>
    if c = '-' || c = '*' then
      let ws := t.takeWhile isWs
      if ws.isEmpty then none
      else
        match t.dropWhile isWs with
        | '[' :: x :: ']' :: rest =>
          if x = '\n' then none
          else
            let ws₂ := rest.takeWhile isWs
            if ws₂.isEmpty then none
            else
              let afterWs := rest.dropWhile isWs
              let body := afterWs.takeWhile (· ≠ '\n')
              if body.isEmpty then none
              else
                let consumed := c :: (ws ++ '[' :: x :: ']' :: (ws₂ ++ body))
                match afterWs.dropWhile (· ≠ '\n') with
                | '\n' :: r => some (consumed ++ ['\n'], r)
                | r => some (consumed, r)
        | _ => none
    else none

/-- Further exit-criteria lines (length-fuelled as for bullets). -/
def exitMoreF : Nat → List Char → List Char
  | 0, _ => []
  | fuel + 1, l =>
    match exitLine l with
    | none => []
    | some (consumed, rest) => consumed ++ exitMoreF fuel rest

/-- The capture of `((?:[-*]\s+\[.\]\s+.+\n?)+)`. -/
def exitRegion (l : List Char) : Option (List Char) :=
  match exitLine l with
  | none => none
  | some (consumed, rest) => some (consumed ++ exitMoreF rest.length rest)

/-- One position of the exit-criteria regex
`\*\*EXIT CRITERIA\*\*\s*\n((?:[-*]\s+\[.\]\s+.+\n?)+)` (ignore-case). -/
def exitStep (l : List Char) : Option (List Char) := do
  let r ← dropLitCI "**exit criteria**".data l
  firstSome exitRegion (newlineStarts r)

/-- Per-line `re.search(r"\[.\]\s+(.+)", line)` of the exit-criteria
post-processing, tried at one position. -/
def exitItemStep (l : List Char) : Option (List Char) :=
  match l with
  | '[' :: x :: ']' :: rest =>
    if x = '\n' then none
    else
      let ws := rest.takeWhile isWs
      if ws.isEmpty then none
      else
        let body := (rest.dropWhile isWs).takeWhile (· ≠ '\n')
        if body.isEmpty then none else some body
  | _ => none

/-- The exit-criteria post-processing loop of `from_markdown`. -/
def parseExitItems (group : List Char) : List String :=
  ((strip group).splitOn '\n').foldr
    (fun line acc =>
      match scan exitItemStep line with
      | some body => (⟨strip body⟩ : String) :: acc
      | none => acc) []

/-- One position of `###\s+Session\s+[\d.]+:\s*(.+)` (case-sensitive). -/
def titleStep (l : List Char) : Option (List Char) := do
  let r₁ ← dropLit "###".data l
  if (r₁.takeWhile isWs).isEmpty then none
  else do
    let r₂ ← dropLit "Session".data (r₁.dropWhile isWs)
    if (r₂.takeWhile isWs).isEmpty then none
    else
      let r₃ := r₂.dropWhile isWs
      if (r₃.takeWhile (fun c => c.isDigit || c = '.')).isEmpty then none
      else
        match r₃.dropWhile (fun c => c.isDigit || c = '.') with
        | ':' :: r₄ =>
          -- `\s*(.+)`: greedily skip whitespace; the group is the rest of
          -- the line there. When only whitespace follows, backtracking
          -- still matches inside the run iff it has a non-newline
          -- character, and the group then strips to the empty string.
          let body := r₄.dropWhile isWs
          if body.isEmpty then
            if (r₄.takeWhile isWs).any (· ≠ '\n') then some [] else none
          else some (body.takeWhile (· ≠ '\n'))
        | _ => none

/-- One position of `\*\*Worktree\*\*\s*\|\s*(YES|NO)` (ignore-case);
returns the Python-side test `group(1).upper() == "YES"`. -/
def worktreeStep (l : List Char) : Option Bool := do
  let r₁ ← dropLitCI "**worktree**".data l
  match r₁.dropWhile isWs with
  | '|' :: t =>
    let r₂ := t.dropWhile isWs
    match dropLitCI "yes".data r₂ with
    | some _ => some true
    | none =>
      match dropLitCI "no".data r₂ with
      | some _ => some false
      | none => none
  | _ => none

/-- One position of `\*\*Scope\*\*\s*\|\s*IN:\s*([^|]+)\.\s*OUT:\s*([^|]+)`
(case-sensitive). The split point of the greedy `([^|]+)\.` is searched
from the right. -/
def scopeStep (l : List Char) : Option (List Char × List Char) := do
  let r₁ ← dropLit "**Scope**".data l
  match r₁.dropWhile isWs with
  | '|' :: t =>
    let r₂ ← dropLit "IN:".data (t.dropWhile isWs)
    let run := (r₂.dropWhile isWs).takeWhile (· ≠ '|')
    firstSome (fun k =>
      let g₁ := run.take k
      match run.drop k with
      | '.' :: rest =>
        if g₁.isEmpty then none
        else
          match dropLit "OUT:".data (rest.dropWhile isWs) with
          | some r₃ =>
            let g₂ := r₃.dropWhile isWs
            if g₂.isEmpty then none else some (g₁, g₂)
          | none => none
      | _ => none) ((List.range run.length).reverse)
  | _ => none

/-- One position of `\*\*<header>\*\*\s*\|\s*([^|]+)` (case-sensitive),
shared by the Start When / Stop When patterns. -/
def afterBarStep (header : List Char) (l : List Char) : Option (List Char) := do
  let r₁ ← dropLit header l
  match r₁.dropWhile isWs with
  | '|' :: t =>
    let g := (t.dropWhile isWs).takeWhile (· ≠ '|')
    if g.isEmpty then none else some g
  | _ => none

/-- A code-fence delimiter (three U+0060 characters). -/
def fenceChars : List Char := [Char.ofNat 96, Char.ofNat 96, Char.ofNat 96]

/-- The lazy `(.*?)` capture running up to the next code fence; `none`
when no closing fence exists. -/
def takeUntilFence : List Char → Option (List Char)
  | [] => none
  | c :: t =>
    if (dropLit fenceChars (c :: t)).isSome then some []
    else (takeUntilFence t).map (c :: ·)

/-- An opening code fence followed by `\s*\n(.*?)` and a closing fence,
tried at one position. -/
def fenceBody (l : List Char) : Option (List Char) := do
  let r ← dropLit fenceChars l
  firstSome takeUntilFence (newlineStarts r)

/-- One position of `\*\*PROMPT\*\*` followed (lazily, across lines,
ignore-case) by a fenced block. -/
def promptStep (l : List Char) : Option (List Char) := do
  let r ← dropLitCI "**prompt**".data l
  scan fenceBody r

/-- One position of `\*\*GIT INSTRUCTIONS\*\*` followed lazily by a
fenced block whose fence may carry a `bash` info string. -/
def gitStep (l : List Char) : Option (List Char) := do
  let r ← dropLitCI "**git instructions**".data l
  scan (fun pos => do
    let r₁ ← dropLit fenceChars pos
    let withBash := match dropLitCI "bash".data r₁ with
      | some r₂ => firstSome takeUntilFence (newlineStarts r₂)
      | none => none
    match withBash with
    | some g => some g
    | none => firstSome takeUntilFence (newlineStarts r₁)) r

/-- The region matched by `(.*?)(?=---|\*\*Files|$)` (lazy, `DOTALL`,
ignore-case): up to the first `---` or `**Files` marker, else to the end. -/
def takeUntilStop : List Char → List Char
  | [] => []
  | c :: t =>
    if (dropLit "---".data (c :: t)).isSome || (dropLitCI "**files".data (c :: t)).isSome then []
    else c :: takeUntilStop t

/-- One position of `\*\*HANDOFF\*\*\s*\n(.*?)(?=---|\*\*Files|$)`. -/
def handoffStep (l : List Char) : Option (List Char) := do
  let r ← dropLitCI "**handoff**".data l
  firstSome (fun start => some (takeUntilStop start)) (newlineStarts r)

/-- `SessionSpec` dataclass from `session.py`. -/
structure SessionSpec where
  session_id : String
  title : String
  worktree : Bool
  scope_in : List String
  scope_out : List String
  start_when : String
  stop_when : String
  prompt : String
  ask_user_if : List String
  exit_criteria : List String
  git_instructions : String
  handoff : String
deriving DecidableEq, Repr

/-- `SessionSpec.from_markdown`: each field is extracted by its own
regex search over the same content, with an empty/default value whenever
that search fails; no failure is ever propagated. -/
def SessionSpec.from_markdown (session_id content : String) : SessionSpec :=
  let l := content.data
  { session_id := session_id
    title := match scan titleStep l with
      | some g => ⟨strip g⟩
      | none => "Session " ++ session_id
    worktree := (scan worktreeStep l).getD false
    scope_in := match scan scopeStep l with
      | some (g₁, _) => [⟨strip g₁⟩]
      | none => []
    scope_out := match scan scopeStep l with
      | some (_, g₂) => [⟨strip g₂⟩]
      | none => []
    start_when := match scan (afterBarStep "**Start When**".data) l with
      | some g => ⟨strip g⟩
      | none => ""
    stop_when := match scan (afterBarStep "**Stop When**".data) l with
      | some g => ⟨strip g⟩
      | none => ""
    prompt := match scan promptStep l with
      | some g => ⟨strip g⟩
      | none => ""
    ask_user_if := match scan askStep l with
      | some g => parseAskItems g
      | none => []
    exit_criteria := match scan exitStep l with
      | some g => parseExitItems g
      | none => []
    git_instructions := match scan gitStep l with
      | some g => ⟨strip g⟩
      | none => ""
    handoff := match scan handoffStep l with
      | some g => ⟨strip g⟩
      | none => "" }

end Session

namespace State

/-- The state carried by an `Except`-returning state operation, dropping
the returned `SessionState`. -/
def okState (e : Except String (RefactorState × SessionState)) : Option RefactorState :=
  match e with
  | .ok (s, _) => some s
  | .error _ => none

/-- Observer: the audit result of a session, if tracked. -/
def RefactorState.auditResultOf (s : RefactorState) (session_id : String) :
    Option AuditResult :=
  (dictGet s.sessions session_id).map (·.audit_result)

/-- Observer: the iteration counter of a session, if tracked. -/
def RefactorState.iterationOf (s : RefactorState) (session_id : String) :
    Option Int :=
  (dictGet s.sessions session_id).map (·.iteration_count)

end State

namespace Signals

/-- One `write_signal` call of a write sequence: the clock reading taken
during the call together with the call's arguments. -/
structure WriteReq where
  time : DateTime
  signal_type : SignalType
  session_id : String
  payload : Json

/-- The `Signal` value a call writes. -/
def mkSignal (w : WriteReq) : Signal :=
  { type := w.signal_type
    session_id := w.session_id
    timestamp := isoformat w.time
    payload := w.payload }

/-- A sequence of `write_signal` calls against one signals directory. -/
def writeAll : List (String × FileData) → List WriteReq → List (String × FileData)
  | dir, [] => dir
  | dir, w :: ws =>
    writeAll (write_signal dir w.time w.signal_type w.session_id w.payload).1 ws

end Signals

namespace Lifecycle

open State Orchestrator

/-- One application of a state-mutating operation of the system: the five
State Store transition operations and the orchestrator's `advance_phase`. -/
inductive Step : RefactorState → RefactorState → Prop where
  | add (s : RefactorState) (id now : String) (s' : RefactorState) (sess : SessionState)
      (h : s.add_session id now = .ok (s', sess)) : Step s s'
  | start (s : RefactorState) (id now : String) :
      Step s (s.start_session id now).1
  | complete (s : RefactorState) (id : String) (ch : Option String) (notes now : String)
      (s' : RefactorState) (sess : SessionState)
      (h : s.complete_session id ch notes now = .ok (s', sess)) : Step s s'
  | mark (s : RefactorState) (id notes now : String)
      (s' : RefactorState) (sess : SessionState)
      (h : s.mark_needs_revision id notes now = .ok (s', sess)) : Step s s'
  | incr (s : RefactorState) (id now : String) :
      Step s (s.increment_iteration id now).1
  | advance (s : RefactorState) (f t now : String) (s' : RefactorState) (ok : Bool) (msg : String)
      (h : advance_phase (some s) f t now = (some s', ok, msg)) : Step s s'

/-- States reachable from a fresh `RefactorState` by the defined
operations. -/
def Reachable (rid now₀ : String) (s : RefactorState) : Prop :=
  Relation.ReflTransGen Step (RefactorState.new rid now₀) s

end Lifecycle

section ConcreteInputs

open State Signals Session Orchestrator Audit

/-- A state with one in-progress session `1.1` (current), obtained by the
defined operations. -/
def demoState : RefactorState :=
  ((RefactorState.new "demo" "t0").start_session "1.1" "t1").1

/-- `demoState` after the orchestrator advances from `1.1` to the
untracked identifier `9.9`. -/
def c2After : Option RefactorState :=
  (advance_phase (some demoState) "1.1" "9.9" "t2").1

/-- `demoState` after `complete_session("1.1", commit_hash="abc1234")`. -/
def c7Completed : RefactorState :=
  (okState (demoState.complete_session "1.1" (some "abc1234") "" "t2")).getD demoState

/-- `c7Completed` after `mark_needs_revision("1.1")`. -/
def c7Marked : RefactorState :=
  (okState (c7Completed.mark_needs_revision "1.1" "" "t3")).getD c7Completed

/-- `demoState` after the orchestrator advances from `1.1` to `2.1`. -/
def c8After : Option RefactorState :=
  (advance_phase (some demoState) "1.1" "2.1" "t2").1

/-- A two-call write sequence with strictly increasing clock readings. -/
def c3reqs : List WriteReq :=
  [{ time := ⟨2026, 1, 3, 14, 30, 0, 123⟩, signal_type := .session_started,
     session_id := "1.1", payload := .obj [] },
   { time := ⟨2026, 1, 3, 14, 30, 5, 0⟩, signal_type := .session_done,
     session_id := "1.1", payload := .obj [("commit_hash", .str "abc1234")] }]

/-- A well-formed serialized signal used as directory content. -/
def c4good : Json :=
  Signal.to_dict
    { type := .paused, session_id := "1.1", timestamp := "2026-01-03T15:00:00",
      payload := .obj [] }

/-- A session-spec markdown block containing every section except
`ASK USER IF`. -/
def c10content : String :=
  "### Session 1.1: Core State\n| **Worktree** | YES |\n| **Scope** | IN: state module. OUT: ui |\n| **Start When** | plan approved |\n| **Stop When** | tests pass |\n**PROMPT**\n```\nBuild the state store.\n```\n**EXIT CRITERIA**\n- [ ] tests green\n**GIT INSTRUCTIONS**\n```bash\ngit commit -am done\n```\n**HANDOFF**\nNotes for next.\n"

end ConcreteInputs

/-! ### Association-list lemmas -/

theorem dictGet_dictSet_self (m : List (String × α)) (k : String) (v : α) :
    dictGet (dictSet m k v) k = some v := by
  induction m with
  | nil => simp [dictGet, dictSet]
  | cons p rest ih =>
    by_cases h : p.1 = k
    · simp [dictGet, dictSet, h]
    · simp [dictGet, dictSet, h, ih]

theorem dictGet_dictSet_ne (m : List (String × α)) {k k' : String} (v : α)
    (h : k' ≠ k) : dictGet (dictSet m k v) k' = dictGet m k' := by
  have hne : ¬(k = k') := fun hh => h hh.symm
  induction m with
  | nil => simp [dictGet, dictSet, hne]
  | cons p rest ih =>
    by_cases hp : p.1 = k
    · subst hp
      simp [dictGet, dictSet, hne]
    · simp only [dictSet, if_neg hp]
      by_cases hp' : p.1 = k'
      · simp [dictGet, hp']
      · simp [dictGet, hp', ih]

theorem isSome_dictGet_dictSet (m : List (String × α)) (k k' : String) (v : α)
    (h : (dictGet m k').isSome) : (dictGet (dictSet m k v) k').isSome := by
  by_cases hk : k' = k
  · subst hk; simp [dictGet_dictSet_self]
  · rwa [dictGet_dictSet_ne m v hk]

theorem dictGet_append_isSome (m l : List (String × α)) (k : String)
    (h : (dictGet m k).isSome) : dictGet (m ++ l) k = dictGet m k := by
  induction m with
  | nil => simp [dictGet] at h
  | cons p rest ih =>
    by_cases hp : p.1 = k
    · simp [dictGet, hp]
    · simp only [dictGet, hp, if_false] at h
      simp only [List.cons_append, dictGet, hp, if_false]
      exact ih h

theorem mem_dictSet (m : List (String × α)) (k : String) (v : α)
    (P : String × α → Prop)
    (hm : ∀ p ∈ m, P p) (hv : P (k, v)) : ∀ p ∈ dictSet m k v, P p := by
  induction m with
  | nil => simpa [dictSet] using hv
  | cons q rest ih =>
    intro p hp
    by_cases hq : q.1 = k
    · simp only [dictSet, if_pos hq, List.mem_cons] at hp
      rcases hp with rfl | hp
      · exact hv
      · exact hm p (List.mem_cons_of_mem _ hp)
    · simp only [dictSet, if_neg hq, List.mem_cons] at hp
      rcases hp with rfl | hp
      · exact hm p (List.mem_cons_self _ _)
      · exact ih (fun r hr => hm r (List.mem_cons_of_mem _ hr)) p hp

theorem dictGet_mem {m : List (String × α)} {k : String} {v : α}
    (h : dictGet m k = some v) : (k, v) ∈ m := by
  induction m with
  | nil => simp [dictGet] at h
  | cons p rest ih =>
    by_cases hp : p.1 = k
    · simp only [dictGet, if_pos hp] at h
      obtain rfl := Option.some_injective _ h
      exact hp ▸ List.mem_cons_self _ _
    · simp only [dictGet, if_neg hp] at h
      exact List.mem_cons_of_mem _ (ih h)

/-! ### C2: preservation of the `current_session` invariant -/

section C2

open State Orchestrator

/-- C2 (amended): the invariant "`current_session` is null or a key of
`sessions`" is preserved by the five State Store operations for all
arguments; `advance_phase` preserves it only when its `to_session`
argument is a tracked session (its unconditional
`current_session = to_session` assignment breaks the invariant for an
untracked target, as `c2_counterexample` shows). -/
theorem c2_invariant_preservation :
    (∀ (s : RefactorState) (id now : String),
      s.currentSessionOk = true →
      ((okState (s.add_session id now)).all RefactorState.currentSessionOk) = true) ∧
    (∀ (s : RefactorState) (id now : String),
      ((s.start_session id now).1).currentSessionOk = true) ∧
    (∀ (s : RefactorState) (id : String) (ch : Option String) (notes now : String),
      s.currentSessionOk = true →
      ((okState (s.complete_session id ch notes now)).all RefactorState.currentSessionOk) = true) ∧
    (∀ (s : RefactorState) (id notes now : String),
      s.currentSessionOk = true →
      ((okState (s.mark_needs_revision id notes now)).all RefactorState.currentSessionOk) = true) ∧
    (∀ (s : RefactorState) (id now : String),
      s.currentSessionOk = true →
      ((s.increment_iteration id now).1).currentSessionOk = true) ∧
    (∀ (s : RefactorState) (f t now : String),
      (dictGet s.sessions t).isSome = true →
      (((advance_phase (some s) f t now).1).all RefactorState.currentSessionOk) = true) := by
  refine ⟨?_, ?_, ?_, ?_, ?_, ?_⟩
  · intro s id now hinv
    simp only [RefactorState.add_session]
    split
    · rfl
    · simp only [okState, Option.all, RefactorState.log_change, RefactorState.currentSessionOk] at hinv ⊢
      cases hcs : s.current_session with
      | none => rfl
      | some cs =>
        rw [hcs] at hinv
        simpa [dictGet_append_isSome _ _ _ hinv] using hinv
  · intro s id now
    simp only [RefactorState.start_session, RefactorState.log_change,
      RefactorState.currentSessionOk]
    simp [dictGet_dictSet_self]
  · intro s id ch notes now hinv
    simp only [RefactorState.complete_session]
    split
    · rfl
    · simp only [okState, Option.all, RefactorState.log_change, RefactorState.currentSessionOk] at hinv ⊢
      cases hcs : s.current_session with
      | none => rfl
      | some cs =>
        rw [hcs] at hinv
        simpa using isSome_dictGet_dictSet _ _ _ _ hinv
  · intro s id notes now hinv
    simp only [RefactorState.mark_needs_revision]
    split
    · rfl
    · simp only [okState, Option.all, RefactorState.log_change, RefactorState.currentSessionOk] at hinv ⊢
      cases hcs : s.current_session with
      | none => rfl
      | some cs =>
        rw [hcs] at hinv
        simpa using isSome_dictGet_dictSet _ _ _ _ hinv
  · intro s id now hinv
    simp only [RefactorState.increment_iteration]
    split
    · simp only [RefactorState.log_change, RefactorState.currentSessionOk] at hinv ⊢
      cases hcs : s.current_session with
      | none => rfl
      | some cs =>
        rw [hcs] at hinv
        simpa using isSome_dictGet_dictSet _ _ _ _ hinv
    · exact hinv
  · intro s f t now hmem
    simp only [advance_phase, RefactorState.save, RefactorState.currentSessionOk,
      Option.all]
    split
    · split
      · simpa using isSome_dictGet_dictSet _ _ _ _ hmem
      · simpa using hmem
    · simpa using hmem

/-- C2 counterexample: the claim as stated is false — starting from a
state satisfying the invariant, `advance_phase("1.1", "9.9")` succeeds,
sets `current_session` to `"9.9"`, and `"9.9"` is not a key of
`sessions`. -/
theorem c2_counterexample :
    demoState.currentSessionOk = true ∧
    (Orchestrator.advance_phase (some demoState) "1.1" "9.9" "t2").2.1 = true ∧
    c2After.map RefactorState.currentSessionOk = some false ∧
    c2After.bind (fun s => s.current_session) = some "9.9" :=
  ⟨rfl, rfl, rfl, rfl⟩

/-- C2 witness: the amended preservation theorem applied at concrete
inputs, with every hypothesis discharged by evaluation. -/
theorem c2_invariant_preservation_witness :
    ((okState (demoState.add_session "3.1" "t2")).all RefactorState.currentSessionOk) = true ∧
    ((demoState.start_session "2.1" "t2").1).currentSessionOk = true ∧
    ((okState (demoState.complete_session "1.1" (some "abc1234") "" "t2")).all
      RefactorState.currentSessionOk) = true ∧
    ((okState (demoState.mark_needs_revision "1.1" "notes" "t2")).all
      RefactorState.currentSessionOk) = true ∧
    ((demoState.increment_iteration "1.1" "t2").1).currentSessionOk = true ∧
    (((Orchestrator.advance_phase (some demoState) "1.1" "1.1" "t2").1).all
      RefactorState.currentSessionOk) = true :=
  ⟨c2_invariant_preservation.1 demoState "3.1" "t2" (by decide),
   c2_invariant_preservation.2.1 demoState "2.1" "t2",
   c2_invariant_preservation.2.2.1 demoState "1.1" (some "abc1234") "" "t2" (by decide),
   c2_invariant_preservation.2.2.2.1 demoState "1.1" "notes" "t2" (by decide),
   c2_invariant_preservation.2.2.2.2.1 demoState "1.1" "t2" (by decide),
   c2_invariant_preservation.2.2.2.2.2 demoState "1.1" "1.1" "t2" (by decide)⟩

end C2

/-! ### C6: start/complete lifecycle and the not-found failure -/

section C6

open State

theorem isSome_get_start_self (s : RefactorState) (id now : String) :
    (dictGet ((s.start_session id now).1).sessions id).isSome := by
  simp [RefactorState.start_session, RefactorState.log_change, dictGet_dictSet_self]

theorem complete_session_of_present (s : RefactorState) (id : String)
    (ch : Option String) (notes now : String)
    (h : (dictGet s.sessions id).isSome) :
    ((okState (s.complete_session id ch notes now)).map
      (fun s' => s'.statusOf id)) = some (some .completed) := by
  simp only [RefactorState.complete_session]
  split
  · simp_all
  · simp [okState, RefactorState.log_change, RefactorState.statusOf, dictGet_dictSet_self]

/-- C6: `start_session(id)` then `complete_session(id)` drives the
session `pending → in_progress → completed`; `complete_session` on an
untracked identifier fails with the session-not-found `ValueError` (the
membership check precedes every mutation, so the failing call changes no
state). -/
theorem c6_lifecycle :
    (∀ (s : RefactorState) (id now₁ now₂ : String),
      (s.statusOf id = some .pending ∨ s.statusOf id = none) →
      ((s.start_session id now₁).1.statusOf id = some .in_progress ∧
       ((okState ((s.start_session id now₁).1.complete_session id none "" now₂)).map
          (fun s' => s'.statusOf id)) = some (some .completed))) ∧
    (∀ (s : RefactorState) (id : String) (ch : Option String) (notes now : String),
      s.statusOf id = none →
      s.complete_session id ch notes now = .error ("Session not found: " ++ id)) := by
  constructor
  · intro s id now₁ now₂ _
    constructor
    · simp [RefactorState.start_session, RefactorState.log_change,
        RefactorState.statusOf, dictGet_dictSet_self]
    · exact complete_session_of_present _ _ _ _ _ (isSome_get_start_self s id now₁)
  · intro s id ch notes now h
    have hg : dictGet s.sessions id = none := by
      cases hd : dictGet s.sessions id with
      | none => rfl
      | some v => simp [RefactorState.statusOf, hd] at h
    simp [RefactorState.complete_session, hg]

/-- C6 witness: the lifecycle theorem applied to a fresh state and the
identifier `1.1`, and the failure branch applied to `demoState` and the
untracked identifier `9.9`. -/
theorem c6_lifecycle_witness :
    (((RefactorState.new "demo" "t0").start_session "1.1" "t1").1.statusOf "1.1" =
        some .in_progress ∧
      ((okState ((((RefactorState.new "demo" "t0").start_session "1.1" "t1").1).complete_session
          "1.1" none "" "t2")).map (fun s' => s'.statusOf "1.1")) = some (some .completed)) ∧
    demoState.complete_session "9.9" none "" "t2" =
      .error ("Session not found: " ++ "9.9") :=
  ⟨c6_lifecycle.1 (RefactorState.new "demo" "t0") "1.1" "t1" "t2" (Or.inr rfl),
   c6_lifecycle.2 demoState "9.9" none "" "t2" rfl⟩

end C6

/-! ### C7: the `completed_at` / status-`completed` equivalence -/

section C7

open State Lifecycle Orchestrator

/-- C7 counterexample: after `complete_session` then `mark_needs_revision`
(the ordinary failed-audit path), the session's status is
`needs_revision` while `completed_at` is still set, so "`completed_at`
non-null iff status `completed`" is false. -/
theorem c7_counterexample :
    c7Completed.statusOf "1.1" = some .completed ∧
    c7Completed.completedAtOf "1.1" = some (some "t2") ∧
    c7Marked.statusOf "1.1" = some .needs_revision ∧
    c7Marked.completedAtOf "1.1" = some (some "t2") :=
  ⟨rfl, rfl, rfl, rfl⟩

theorem step_preserves_completed_stamp {s s' : RefactorState}
    (h : Step s s')
    (hinv : ∀ p ∈ s.sessions, p.2.status = .completed → p.2.completed_at ≠ none) :
    ∀ p ∈ s'.sessions, p.2.status = .completed → p.2.completed_at ≠ none := by
  cases h with
  | add id now s₂ sess heq =>
    simp only [RefactorState.add_session] at heq
    split at heq
    · exact absurd heq (by simp)
    · obtain ⟨rfl, rfl⟩ : _ ∧ _ := by
        simpa [RefactorState.log_change] using heq
      intro p hp
      simp only [RefactorState.log_change] at hp
      rcases List.mem_append.mp hp with hmem | hmem
      · exact hinv p hmem
      · simp only [List.mem_singleton] at hmem
        subst hmem
        simp [SessionState.new]
  | start id now =>
    simp only [RefactorState.start_session, RefactorState.log_change]
    have hinv₀ : ∀ p ∈ (if (dictGet s.sessions id).isNone then
        match s.add_session id now with
        | .ok (s', _) => s'
        | .error _ => s
      else s).sessions, p.2.status = .completed → p.2.completed_at ≠ none := by
      split
      · cases hadd : s.add_session id now with
        | ok v =>
          obtain ⟨s₂, sess⟩ := v
          simp only [RefactorState.add_session] at hadd
          split at hadd
          · exact absurd hadd (by simp)
          · obtain ⟨rfl, rfl⟩ : _ ∧ _ := by
              simpa [RefactorState.log_change] using hadd
            intro p hp
            simp only [RefactorState.log_change] at hp
            rcases List.mem_append.mp hp with hmem | hmem
            · exact hinv p hmem
            · simp only [List.mem_singleton] at hmem
              subst hmem
              simp [SessionState.new]
        | error e => exact hinv
      · exact hinv
    exact mem_dictSet _ _ _ _ hinv₀ (by simp)
  | complete id ch notes now s₂ sess heq =>
    simp only [RefactorState.complete_session] at heq
    split at heq
    · exact absurd heq (by simp)
    · obtain ⟨rfl, rfl⟩ : _ ∧ _ := by
        simpa [RefactorState.log_change] using heq
      exact mem_dictSet _ _ _ _ hinv (by simp)
  | mark id notes now s₂ sess heq =>
    simp only [RefactorState.mark_needs_revision] at heq
    split at heq
    · exact absurd heq (by simp)
    · obtain ⟨rfl, rfl⟩ : _ ∧ _ := by
        simpa [RefactorState.log_change] using heq
      exact mem_dictSet _ _ _ _ hinv (by simp)
  | incr id now =>
    simp only [RefactorState.increment_iteration]
    split
    · next session heq =>
      simp only [RefactorState.log_change]
      refine mem_dictSet _ _ _ _ hinv ?_
      exact hinv (id, session) (dictGet_mem heq)
    · exact hinv
  | advance f t now s₂ ok msg heq =>
    simp only [advance_phase, RefactorState.save, Prod.mk.injEq, Option.some.injEq] at heq
    obtain ⟨hs₂, -, -⟩ := heq
    subst hs₂
    show ∀ p ∈ (match dictGet s.sessions f with
      | some session =>
        if session.status ≠ SessionStatus.completed then
          { s with
            sessions := dictSet s.sessions f
              { session with status := .completed, completed_at := some now } }
        else s
      | none => s).sessions, p.2.status = .completed → p.2.completed_at ≠ none
    split
    · split
      · exact mem_dictSet _ _ _ _ hinv (by simp)
      · exact hinv
    · exact hinv

/-- C7 (amended): one direction of the claimed equivalence does hold for
every reachable state — a session whose status is `completed` always has
`completed_at` set. The converse fails: `start_session` and
`mark_needs_revision` change the status of a previously completed session
without clearing `completed_at` (see `c7_counterexample`). -/
theorem c7_completed_stamp :
    ∀ (rid now₀ : String) (s : RefactorState), Reachable rid now₀ s →
      ∀ p ∈ s.sessions, p.2.status = .completed → p.2.completed_at ≠ none := by
  intro rid now₀ s hreach
  induction hreach with
  | refl => simp [RefactorState.new]
  | tail _ hstep ih => exact step_preserves_completed_stamp hstep ih

/-- C7 witness: `c7Completed` is reachable by the defined operations, and
the reachability theorem yields a non-null `completed_at` for its
completed session `1.1`. -/
theorem c7_completed_stamp_witness :
    ((dictGet c7Completed.sessions "1.1").getD (SessionState.new "1.1")).completed_at ≠ none := by
  have h₁ : Step (RefactorState.new "demo" "t0") demoState :=
    Step.start (RefactorState.new "demo" "t0") "1.1" "t1"
  have h₂ : Step demoState c7Completed :=
    Step.complete demoState "1.1" (some "abc1234") "" "t2" c7Completed _ rfl
  have hreach : Reachable "demo" "t0" c7Completed :=
    Relation.ReflTransGen.tail (Relation.ReflTransGen.single h₁) h₂
  exact c7_completed_stamp "demo" "t0" c7Completed hreach
    ("1.1", (dictGet c7Completed.sessions "1.1").getD (SessionState.new "1.1"))
    (by decide) (by decide)

end C7

/-! ### C8: every mutation appends to the append-only history -/

section C8

open State Orchestrator Audit

/-- C8 (amended): the five State Store operations append at least one
`StateChange` to the history on every mutation, and existing entries are
never modified or removed (the old history is a strict prefix of the
new); `increment_iteration` on an absent session mutates nothing and
appends nothing. The orchestrator's `advance_phase` and the audit agent's
`update_state_audit_result`, however, mutate session fields and
`current_session` directly without appending any history entry
(see `c8_counterexample`). -/
theorem c8_history_append :
    (∀ (s : RefactorState) (id now : String), ∀ s' ∈ okState (s.add_session id now),
      s.history <+: s'.history ∧ s.history.length < s'.history.length) ∧
    (∀ (s : RefactorState) (id now : String),
      s.history <+: ((s.start_session id now).1).history ∧
      s.history.length < ((s.start_session id now).1).history.length) ∧
    (∀ (s : RefactorState) (id : String) (ch : Option String) (notes now : String),
      ∀ s' ∈ okState (s.complete_session id ch notes now),
      s.history <+: s'.history ∧ s.history.length < s'.history.length) ∧
    (∀ (s : RefactorState) (id notes now : String),
      ∀ s' ∈ okState (s.mark_needs_revision id notes now),
      s.history <+: s'.history ∧ s.history.length < s'.history.length) ∧
    (∀ (s : RefactorState) (id now : String),
      ((dictGet s.sessions id).isSome →
        s.history <+: ((s.increment_iteration id now).1).history ∧
        s.history.length < ((s.increment_iteration id now).1).history.length) ∧
      ((dictGet s.sessions id).isNone → (s.increment_iteration id now).1 = s)) := by
  refine ⟨?_, ?_, ?_, ?_, ?_⟩
  · intro s id now s' hs'
    simp only [RefactorState.add_session] at hs'
    split at hs'
    · simp [okState] at hs'
    · simp only [okState, Option.mem_def, Option.some.injEq] at hs'
      subst hs'
      simp [RefactorState.log_change, List.prefix_append]
  · intro s id now
    simp only [RefactorState.start_session, RefactorState.log_change]
    split
    · cases hadd : s.add_session id now with
      | ok v =>
        simp only [RefactorState.add_session] at hadd
        split at hadd
        · exact absurd hadd (by simp)
        · obtain rfl : v = _ := by simpa using hadd.symm
          simp only [RefactorState.log_change]
          constructor
          · exact ⟨_, (List.append_assoc _ _ _).symm⟩
          · simp
      | error e =>
        simp [RefactorState.log_change, List.prefix_append]
    · simp [List.prefix_append]
  · intro s id ch notes now s' hs'
    simp only [RefactorState.complete_session] at hs'
    split at hs'
    · simp [okState] at hs'
    · simp only [okState, Option.mem_def, Option.some.injEq] at hs'
      subst hs'
      simp [RefactorState.log_change, List.prefix_append]
  · intro s id notes now s' hs'
    simp only [RefactorState.mark_needs_revision] at hs'
    split at hs'
    · simp [okState] at hs'
    · simp only [okState, Option.mem_def, Option.some.injEq] at hs'
      subst hs'
      simp [RefactorState.log_change, List.prefix_append]
  · intro s id now
    constructor
    · intro hsome
      simp only [RefactorState.increment_iteration]
      split
      · simp [RefactorState.log_change, List.prefix_append]
      · next hnone => simp [hnone] at hsome
    · intro hnone
      simp only [RefactorState.increment_iteration]
      split
      · next sess hget => simp [hget] at hnone
      · rfl

/-- C8 counterexample: `advance_phase` marks session `1.1` completed and
moves `current_session`, and `update_state_audit_result` flips a
session's audit result, while both leave the history exactly as it was —
state mutations that no `StateChange` records. -/
theorem c8_counterexample :
    c8After.map (fun s => s.history.length) = some demoState.history.length ∧
    c8After.map (fun s => s.statusOf "1.1") = some (some .completed) ∧
    demoState.statusOf "1.1" = some .in_progress ∧
    c8After.map (fun s => s.current_session) = some (some "2.1") ∧
    demoState.current_session = some "1.1" ∧
    (update_state_audit_result (some demoState) ["1.1"] true "t9").map
      (fun s => s.history.length) = some demoState.history.length ∧
    (update_state_audit_result (some demoState) ["1.1"] true "t9").map
      (fun s => s.auditResultOf "1.1") = some (some .passed) ∧
    demoState.auditResultOf "1.1" = some .pending :=
  ⟨rfl, rfl, rfl, rfl, rfl, rfl, rfl, rfl⟩

/-- C8 witness: the amended theorem applied at concrete inputs. -/
theorem c8_history_append_witness :
    (demoState.history <+:
        ((okState (demoState.add_session "3.1" "t2")).getD demoState).history ∧
      demoState.history.length <
        ((okState (demoState.add_session "3.1" "t2")).getD demoState).history.length) ∧
    (demoState.history <+: ((demoState.start_session "2.1" "t2").1).history ∧
      demoState.history.length < ((demoState.start_session "2.1" "t2").1).history.length) ∧
    (demoState.history <+: ((demoState.increment_iteration "1.1" "t2").1).history ∧
      demoState.history.length < ((demoState.increment_iteration "1.1" "t2").1).history.length) :=
  ⟨c8_history_append.1 demoState "3.1" "t2"
      ((okState (demoState.add_session "3.1" "t2")).getD demoState)
      (Option.mem_def.mpr rfl),
   c8_history_append.2.1 demoState "2.1" "t2",
   (c8_history_append.2.2.2.2 demoState "1.1" "t2").1 (by decide)⟩

end C8

/-! ### C1: the escalation signal the audit agent needs does not exist -/

section C1

open Signals

/-- C1: `audit_agent.py` imports `signal_escalation_needed` from
`signals.py` (and `record_escalation` calls it), but `signals.py` binds
no such name, and the closed `SignalType` enum consists of exactly the
seven members below — none of them an escalation variant. Importing
`forge.refactor.audit_agent` therefore raises `ImportError`, and
`record_escalation` can never write the escalation signal the spec
describes. -/
theorem c1_escalation_signal_missing :
    "signal_escalation_needed" ∈ audit_agent_imports_from_signals ∧
    "signal_escalation_needed" ∉ signals_module_defs ∧
    (∀ t : SignalType, t ∈ SignalType.all) ∧
    SignalType.all.map SignalType.value =
      ["session_started", "session_done", "audit_passed", "revision_needed",
       "question", "paused", "resumed"] :=
  ⟨by decide, by decide, fun t => by cases t <;> decide, rfl⟩

end C1

/-! ### C5: save/load round-trip -/

section C5

open State

theorem sessionState_from_to (sess : SessionState) :
    SessionState.from_dict sess.to_dict = some sess := by
  obtain ⟨sid, status, started, completed, commit, audit, notes, iter⟩ := sess
  cases status <;> cases audit <;>
    cases started <;> cases completed <;> cases commit <;> rfl

theorem stateChange_from_to (c : StateChange) :
    StateChange.from_dict c.to_dict = some c := by
  obtain ⟨ts, act, details⟩ := c
  rfl

theorem parseSessions_map (l : List (String × SessionState)) :
    parseSessions (l.map (fun p => (p.1, p.2.to_dict))) = some l := by
  induction l with
  | nil => rfl
  | cons p rest ih =>
    simp [parseSessions, sessionState_from_to, ih]

theorem parseHistory_map (l : List StateChange) :
    parseHistory (l.map StateChange.to_dict) = some l := by
  induction l with
  | nil => rfl
  | cons c rest ih =>
    simp [parseHistory, stateChange_from_to, ih]

/-- C5: saving a `RefactorState` and loading the written document yields
a state equal in all fields (sessions in order, full history included) to
the state as `save` left it — `save` itself restamps `updated_at`, and
the loaded state carries that same stamp. Holds for any number of
sessions and any history. -/
theorem c5_save_load_round_trip :
    ∀ (s : RefactorState) (now now' : String),
      RefactorState.load ((s.save now).2) now' = some ((s.save now).1) := by
  intro s now now'
  obtain ⟨rid, status, current, sessions, started, updated, completed, history⟩ := s
  simp only [RefactorState.save, RefactorState.load, RefactorState.to_dict,
    RefactorState.from_dict]
  cases status <;> cases current <;> cases started <;> cases completed <;>
    simp [Json.get, dictGet, RefactorStatus.ofValue, RefactorStatus.value,
      parseSessions_map, parseHistory_map, Option.bind]

/-- C5 witness: the round-trip theorem applied to a concrete state with a
session and a history (no hypotheses to discharge beyond evaluation). -/
theorem c5_save_load_round_trip_witness :
    RefactorState.load ((c7Completed.save "t5").2) "t6" = some ((c7Completed.save "t5").1) :=
  c5_save_load_round_trip c7Completed "t5" "t6"

end C5

/-! ### C4: which unparsable signal files are skipped silently -/

section C4

open Signals

theorem filterMap_length_of_isSome {α β : Type _} {f : α → Option β} :
    ∀ (l : List α), (∀ j ∈ l, (f j).isSome) → (l.filterMap f).length = l.length := by
  intro l h
  induction l with
  | nil => rfl
  | cons x rest ih =>
    have hx := h x (List.mem_cons_self _ _)
    cases hfx : f x with
    | none => simp [hfx] at hx
    | some b =>
      simp only [List.filterMap_cons, hfx, List.length_cons]
      exact congrArg (· + 1) (ih (fun j hj => h j (List.mem_cons_of_mem _ hj)))

theorem isOk_exists {r : FromDictResult} (h : r.isOk = true) : ∃ s, r = .ok s := by
  cases r with
  | ok s => exact ⟨s, rfl⟩
  | okLoose j => simp [FromDictResult.isOk] at h
  | keyError k => simp [FromDictResult.isOk] at h
  | valueError => simp [FromDictResult.isOk] at h
  | typeError => simp [FromDictResult.isOk] at h

theorem parse_accepted_of_isOk {j : Json} (h : (Signal.from_dict j).isOk = true) :
    ∃ s, parse_signal_file (FileData.jsonData j) = .accepted s ∧
      acceptedSignal (FileData.jsonData j) = some s := by
  obtain ⟨s, hs⟩ := isOk_exists h
  exact ⟨s, by simp [parse_signal_file, hs], by simp [acceptedSignal, parse_signal_file, hs]⟩

/-- C4 counterexample: the claim's "whatever its content" is false. A
file whose content is valid JSON but not a JSON object — here the array
`[1,2,3]` — makes `Signal.from_dict` subscript a non-dict, raising a
`TypeError` that the reader's except clause does not catch: with one such
file and one well-formed signal file, `read_signals` crashes instead of
returning the one good signal. -/
theorem c4_typeerror_counterexample :
    parse_signal_file (FileData.jsonData (Json.arr [.num 1, .num 2, .num 3])) =
      .raised ∧
    (Signal.from_dict c4good).isOk = true ∧
    read_signals_result
      [FileData.jsonData (Json.arr [.num 1, .num 2, .num 3]),
       FileData.jsonData c4good] = .typeErrorRaised :=
  ⟨rfl, rfl, rfl⟩

/-- C4 (amended): a signals directory holding one file whose parse
failure is of a caught kind — content that is not valid JSON, or a JSON
object with a missing `type`/`session_id`/`timestamp` key or an invalid
signal-type value — plus `N` well-formed signal files yields exactly `N`
signals from `read_signals`, whatever order the filesystem lists the
files in; such a file is skipped silently and nothing is raised. But not
"whatever its content": valid-JSON non-object content raises an uncaught
`TypeError` (see `c4_typeerror_counterexample`), and an object with a
non-string `session_id` or `timestamp` is accepted rather than skipped. -/
theorem c4_corrupt_file_skipped :
    ∀ (bad : FileData) (goods : List Json) (entries : List FileData),
      parse_signal_file bad = .skipped →
      (∀ j ∈ goods, (Signal.from_dict j).isOk = true) →
      entries.Perm (bad :: goods.map FileData.jsonData) →
      read_signals_result entries = .ok (read_signals entries) ∧
      (read_signals entries).length = goods.length := by
  intro bad goods entries hbad hgood hperm
  have hmem : ∀ f ∈ entries,
      parse_signal_file f = .skipped ∨ ∃ s, parse_signal_file f = .accepted s := by
    intro f hf
    rcases List.mem_cons.mp (hperm.mem_iff.mp hf) with rfl | hf'
    · exact Or.inl hbad
    · obtain ⟨j, hj, rfl⟩ := List.mem_map.mp hf'
      obtain ⟨s, hs, -⟩ := parse_accepted_of_isOk (hgood j hj)
      exact Or.inr ⟨s, hs⟩
  constructor
  · have hnr : entries.any (fun f => (parse_signal_file f).isRaised) = false := by
      rw [List.any_eq_false]
      intro f hf
      rcases hmem f hf with h | ⟨s, h⟩ <;> simp [h, FileOutcome.isRaised]
    have hnl : entries.any (fun f => (parse_signal_file f).isLooseAccept) = false := by
      rw [List.any_eq_false]
      intro f hf
      rcases hmem f hf with h | ⟨s, h⟩ <;> simp [h, FileOutcome.isLooseAccept]
    simp [read_signals_result, hnr, hnl]
  · have h₁ : (read_signals entries).length = (entries.filterMap acceptedSignal).length :=
      (List.perm_insertionSort tsLe _).length_eq
    have h₂ : (entries.filterMap acceptedSignal).length =
        ((bad :: goods.map FileData.jsonData).filterMap acceptedSignal).length :=
      (hperm.filterMap acceptedSignal).length_eq
    have hbadnone : acceptedSignal bad = none := by
      simp [acceptedSignal, hbad]
    rw [h₁, h₂, List.filterMap_cons_none hbadnone, List.filterMap_map]
    refine filterMap_length_of_isSome goods ?_
    intro j hj
    obtain ⟨s, -, hs⟩ := parse_accepted_of_isOk (hgood j hj)
    simp [Function.comp, hs]

/-- C4 witness: a directory of one not-valid-JSON file and one valid
signal file (listed corrupt-first) completes without raising and yields
exactly one signal. -/
theorem c4_corrupt_file_skipped_witness :
    read_signals_result [FileData.corrupt, FileData.jsonData c4good] =
      .ok (read_signals [FileData.corrupt, FileData.jsonData c4good]) ∧
    (read_signals [FileData.corrupt, FileData.jsonData c4good]).length = 1 :=
  c4_corrupt_file_skipped .corrupt [c4good] _ rfl (by decide) (List.Perm.refl _)

end C4

/-! ### C9: `record_audit_fail` result-pair contract -/

section C9

open State Signals Audit

theorem increment_get_self (s : RefactorState) (id now : String) (sess : SessionState)
    (h : dictGet s.sessions id = some sess) :
    dictGet ((s.increment_iteration id now).1).sessions id =
      some { sess with iteration_count := sess.iteration_count + 1 } := by
  simp only [RefactorState.increment_iteration, h, RefactorState.log_change]
  exact dictGet_dictSet_self _ _ _

theorem increment_get_ne (s : RefactorState) (id now k : String) (h : k ≠ id) :
    dictGet ((s.increment_iteration id now).1).sessions k = dictGet s.sessions k := by
  simp only [RefactorState.increment_iteration]
  split
  · next sess hd =>
    simp only [RefactorState.log_change]
    exact dictGet_dictSet_ne _ _ h
  · rfl

theorem mark_props (s : RefactorState) (id notes now : String) (sess : SessionState)
    (h : dictGet s.sessions id = some sess) :
    ∃ s' sess', s.mark_needs_revision id notes now = .ok (s', sess') ∧
      dictGet s'.sessions id =
        some { sess with
                 status := .needs_revision
                 audit_result := .failed
                 notes := if notes = "" then sess.notes else notes } ∧
      ∀ k, k ≠ id → dictGet s'.sessions k = dictGet s.sessions k := by
  simp only [RefactorState.mark_needs_revision, h, RefactorState.log_change]
  exact ⟨_, _, rfl, dictGet_dictSet_self _ _ _, fun k hk => dictGet_dictSet_ne _ _ hk⟩

theorem audit_fail_loop_ok (ids : List String) :
    ∀ (s : RefactorState) (notes now : String),
      (∀ id ∈ ids, (dictGet s.sessions id).isSome) → ids.Nodup →
      ∃ s' strs, audit_fail_loop s ids notes now = .ok (s', strs) ∧
        (∀ id ∈ ids, ∃ sess, dictGet s.sessions id = some sess ∧
          dictGet s'.sessions id =
            some { sess with
                     status := .needs_revision
                     audit_result := .failed
                     notes := if notes = "" then sess.notes else notes
                     iteration_count := sess.iteration_count + 1 }) ∧
        (∀ k, k ∉ ids → dictGet s'.sessions k = dictGet s.sessions k) := by
  induction ids with
  | nil =>
    intro s notes now _ _
    exact ⟨s, [], rfl, by simp, fun k _ => rfl⟩
  | cons id rest ih =>
    intro s notes now hall hnd
    obtain ⟨sess, hsess⟩ :=
      Option.isSome_iff_exists.mp (hall id (List.mem_cons_self _ _))
    have h₁ := increment_get_self s id now sess hsess
    obtain ⟨s₂, sess₂, hmark, hget₂, hother₂⟩ :=
      mark_props (s.increment_iteration id now).1 id notes now _ h₁
    have hrest₂ : ∀ j ∈ rest, (dictGet s₂.sessions j).isSome := by
      intro j hj
      have hne : j ≠ id := fun heq => (List.nodup_cons.mp hnd).1 (heq ▸ hj)
      rw [hother₂ j hne, increment_get_ne s id now j hne]
      exact hall j (List.mem_cons_of_mem _ hj)
    obtain ⟨s₃, strs, hloop, hprops, huntouched⟩ :=
      ih s₂ notes now hrest₂ (List.nodup_cons.mp hnd).2
    refine ⟨s₃, (id ++ "→#" ++ toString ((s.increment_iteration id now).2)) :: strs, ?_, ?_, ?_⟩
    · simp only [audit_fail_loop, hmark, hloop]
    · intro j hj
      rcases List.mem_cons.mp hj with rfl | hj
      · refine ⟨sess, hsess, ?_⟩
        rw [huntouched j (List.nodup_cons.mp hnd).1, hget₂]
      · have hne : j ≠ id := fun heq => (List.nodup_cons.mp hnd).1 (heq ▸ hj)
        obtain ⟨sess', hsess', hgot⟩ := hprops j hj
        rw [hother₂ j hne, increment_get_ne s id now j hne] at hsess'
        exact ⟨sess', hsess', hgot⟩
    · intro k hk
      have hkid : k ≠ id := fun heq => hk (heq ▸ List.mem_cons_self _ _)
      have hkrest : k ∉ rest := fun hmem => hk (List.mem_cons_of_mem _ hmem)
      rw [huntouched k hkrest, hother₂ k hkid, increment_get_ne s id now k hkid]

theorem foldl_update_get (passed : Bool) (ids : List String) :
    ∀ (s : RefactorState) (k : String),
      (dictGet (ids.foldl (fun s sid =>
        match dictGet s.sessions sid with
        | some session =>
          { s with
            sessions := dictSet s.sessions sid
              { session with audit_result := if passed then .passed else .failed } }
        | none => s) s).sessions k).map
          (fun e => (e.session_id, e.status, e.started_at, e.completed_at,
                     e.commit_hash, e.notes, e.iteration_count)) =
      (dictGet s.sessions k).map
        (fun e => (e.session_id, e.status, e.started_at, e.completed_at,
                   e.commit_hash, e.notes, e.iteration_count)) := by
  induction ids with
  | nil => intro s k; rfl
  | cons sid rest ihl =>
    intro s k
    simp only [List.foldl_cons]
    rw [ihl]
    split
    · next session hget =>
      by_cases hk : k = sid
      · subst hk
        simp [dictGet_dictSet_self, hget]
      · simp [dictGet_dictSet_ne _ _ hk]
    · rfl

/-- C9 counterexample: with an existing refactor (state document present)
and a session identifier absent from the state, `record_audit_fail` does
not return a `(success, message)` pair — the `ValueError` raised by
`mark_needs_revision` propagates to the caller. -/
theorem c9_counterexample :
    record_audit_fail "demo" ["9.9"] (some (RefactorState.new "demo" "t0"))
      ["missing tests"] [] "t1" = .error ("Session not found: " ++ "9.9") := rfl

/-- C9 (amended): when the refactor exists and every (sanitized,
non-blank) named session is tracked in the state, `record_audit_fail`
returns a `(True, message)` pair, writes exactly the `revision_needed`
signal, marks each named session `needs_revision` with audit result
`failed`, and increments its iteration counter by one. When the refactor
is missing it returns `(False, message)`. But a State Store failure — a
named session absent from the state — escapes as an exception instead of
being surfaced in the pair (see `c9_counterexample`). -/
theorem c9_audit_fail_contract :
    (∀ (rid : String) (raw : List String) (s₀ : RefactorState)
       (issues sugg : List String) (now : String),
      processIds raw ≠ [] →
      (∀ id ∈ processIds raw, (dictGet s₀.sessions id).isSome) →
      (processIds raw).Nodup →
      ∃ s' msg, record_audit_fail rid raw (some s₀) issues sugg now =
          .ok (some s',
            [revision_needed_signal (String.intercalate ", " (processIds raw)) issues sugg now],
            true, msg) ∧
        ∀ id ∈ processIds raw,
          s'.statusOf id = some SessionStatus.needs_revision ∧
          s'.auditResultOf id = some AuditResult.failed ∧
          s'.iterationOf id = (s₀.iterationOf id).map (· + 1)) ∧
    (∀ (rid : String) (raw : List String) (issues sugg : List String) (now : String),
      record_audit_fail rid raw none issues sugg now =
        .ok (none, [], false, "Refactor not found: " ++ rid)) := by
  constructor
  · intro rid raw s₀ issues sugg now hne hall hnd
    simp only [record_audit_fail]
    have hempty : (processIds raw).isEmpty = false := by
      cases h : processIds raw with
      | nil => exact absurd h hne
      | cons a t => rfl
    rw [hempty]
    simp only [Bool.false_eq_true, if_false, update_state_audit_result,
      RefactorState.save, Option.getD_some]
    set st₁ : RefactorState :=
      { (processIds raw).foldl (fun s sid =>
          match dictGet s.sessions sid with
          | some session =>
            { s with
              sessions := dictSet s.sessions sid
                { session with audit_result := .failed } }
          | none => s) s₀ with updated_at := now } with hst₁
    have hst₁get : ∀ k, (dictGet st₁.sessions k).map
        (fun e => (e.session_id, e.status, e.started_at, e.completed_at,
                   e.commit_hash, e.notes, e.iteration_count)) =
      (dictGet s₀.sessions k).map
        (fun e => (e.session_id, e.status, e.started_at, e.completed_at,
                   e.commit_hash, e.notes, e.iteration_count)) := by
      intro k
      have h := foldl_update_get false (processIds raw) s₀ k
      simpa [hst₁] using h
    have hall₁ : ∀ id ∈ processIds raw, (dictGet st₁.sessions id).isSome := by
      intro id hid
      have := hst₁get id
      cases h₁ : dictGet st₁.sessions id with
      | some v => rfl
      | none =>
        rw [h₁] at this
        cases h₀ : dictGet s₀.sessions id with
        | some w => rw [h₀] at this; exact absurd this.symm (by simp)
        | none => exact absurd (h₀ ▸ hall id hid) (by simp)
    obtain ⟨s₃, strs, hloop, hprops, _⟩ :=
      audit_fail_loop_ok (processIds raw) st₁ (String.intercalate "; " issues) now hall₁ hnd
    refine ⟨(s₃.save now).1,
      "Audit FAILED for sessions: " ++ String.intercalate ", " (processIds raw) ++
        ". Iteration: " ++ String.intercalate ", " strs ++ ". Revision needed.", ?_, ?_⟩
    · rw [hloop]
      rfl
    · intro id hid
      obtain ⟨sess₁, hsess₁, hgot⟩ := hprops id hid
      have hproj := hst₁get id
      rw [hsess₁] at hproj
      cases h₀ : dictGet s₀.sessions id with
      | none => rw [h₀] at hproj; exact absurd hproj (by simp)
      | some sess₀ =>
        rw [h₀] at hproj
        simp only [Option.map_some', Option.some.injEq, Prod.mk.injEq] at hproj
        obtain ⟨-, hstat, -, -, -, -, hiter⟩ := hproj
        refine ⟨?_, ?_, ?_⟩
        · simp [RefactorState.save, RefactorState.statusOf, hgot]
        · simp [RefactorState.save, RefactorState.auditResultOf, hgot]
        · simp [RefactorState.save, RefactorState.iterationOf, hgot, h₀, hiter]
  · intro rid raw issues sugg now
    rfl

/-- C9 witness: the contract applied to `demoState` (which tracks `1.1`)
and to a missing refactor, with the hypotheses discharged by evaluation. -/
theorem c9_audit_fail_contract_witness :
    (∃ s' msg, record_audit_fail "demo" ["1.1"] (some demoState)
        ["missing tests"] [] "t2" =
        .ok (some s',
          [revision_needed_signal (String.intercalate ", " (processIds ["1.1"]))
            ["missing tests"] [] "t2"],
          true, msg) ∧
      ∀ id ∈ processIds ["1.1"],
        s'.statusOf id = some .needs_revision ∧
        s'.auditResultOf id = some .failed ∧
        s'.iterationOf id = (demoState.iterationOf id).map (· + 1)) ∧
    record_audit_fail "demo" ["1.1"] none ["missing tests"] [] "t2" =
      .ok (none, [], false, "Refactor not found: " ++ "demo") :=
  ⟨c9_audit_fail_contract.1 "demo" ["1.1"] demoState ["missing tests"] [] "t2"
      (by decide) (by decide) (by decide),
   c9_audit_fail_contract.2 "demo" ["1.1"] ["missing tests"] [] "t2"⟩

end C9

/-! ### C3: write/read ordering — lexicographic-order lemmas -/

section C3

open Signals

theorem char_toNat_inj {a b : Char} (h : a.toNat = b.toNat) : a = b := by
  cases a; cases b
  simp only [Char.toNat] at h
  congr 1
  exact UInt32.toNat.inj h

theorem lexLtb_irrefl : ∀ l : List Char, lexLtb l l = false
  | [] => rfl
  | a :: as => by simp [lexLtb, lexLtb_irrefl as]

theorem lexLtb_ne {a b : List Char} (h : lexLtb a b = true) : a ≠ b := by
  intro heq
  rw [heq, lexLtb_irrefl] at h
  exact Bool.false_ne_true h

theorem lexLtb_cons_same (c : Char) (u v : List Char) :
    lexLtb (c :: u) (c :: v) = lexLtb u v := by
  simp [lexLtb]

theorem lexLtb_asymm : ∀ {a b : List Char}, lexLtb a b = true → lexLtb b a = false
  | [], [], h => by simp [lexLtb] at h
  | [], _ :: _, _ => rfl
  | _ :: _, [], h => by simp [lexLtb] at h
  | x :: xs, y :: ys, h => by
    by_cases hxy : x = y
    · subst hxy
      rw [lexLtb_cons_same] at h ⊢
      exact lexLtb_asymm h
    · have hyx : y ≠ x := fun hh => hxy hh.symm
      simp only [lexLtb, if_neg hxy] at h
      simp only [lexLtb, if_neg hyx]
      have hlt : x.toNat < y.toNat := of_decide_eq_true h
      simp [Nat.lt_asymm hlt]

theorem lexLtb_trans : ∀ {a b c : List Char},
    lexLtb a b = true → lexLtb b c = true → lexLtb a c = true
  | [], _, _ :: _, _, _ => rfl
  | [], b, [], _, h₂ => by cases b <;> simp [lexLtb] at h₂
  | _ :: _, [], _, h₁, _ => by simp [lexLtb] at h₁
  | _ :: _, _ :: _, [], _, h₂ => by simp [lexLtb] at h₂
  | x :: xs, y :: ys, z :: zs, h₁, h₂ => by
    by_cases hxy : x = y <;> by_cases hyz : y = z
    · subst hxy; subst hyz
      rw [lexLtb_cons_same] at h₁ h₂ ⊢
      exact lexLtb_trans h₁ h₂
    · subst hxy
      simpa [lexLtb, hyz] using h₂
    · subst hyz
      simpa [lexLtb, hxy] using h₁
    · simp only [lexLtb, if_neg hxy] at h₁
      simp only [lexLtb, if_neg hyz] at h₂
      have h₁' : x.toNat < y.toNat := of_decide_eq_true h₁
      have h₂' : y.toNat < z.toNat := of_decide_eq_true h₂
      have hxz : x ≠ z := fun hh => absurd (hh ▸ Nat.lt_trans h₁' h₂') (by omega)
      simp [lexLtb, if_neg hxz, Nat.lt_trans h₁' h₂']

theorem lexLtb_eq_of_both_false : ∀ {a b : List Char},
    lexLtb a b = false → lexLtb b a = false → a = b
  | [], [], _, _ => rfl
  | [], _ :: _, h₁, _ => by simp [lexLtb] at h₁
  | _ :: _, [], _, h₂ => by simp [lexLtb] at h₂
  | x :: xs, y :: ys, h₁, h₂ => by
    by_cases hxy : x = y
    · subst hxy
      rw [lexLtb_cons_same] at h₁ h₂
      rw [lexLtb_eq_of_both_false h₁ h₂]
    · have hyx : y ≠ x := fun hh => hxy hh.symm
      simp only [lexLtb, if_neg hxy] at h₁
      simp only [lexLtb, if_neg hyx] at h₂
      have hn₁ : ¬ x.toNat < y.toNat := of_decide_eq_false h₁
      have hn₂ : ¬ y.toNat < x.toNat := of_decide_eq_false h₂
      exact absurd (char_toNat_inj (Nat.le_antisymm (Nat.le_of_not_lt hn₂) (Nat.le_of_not_lt hn₁))) hxy

theorem lexLtb_append_same : ∀ (p u v : List Char),
    lexLtb (p ++ u) (p ++ v) = lexLtb u v
  | [], _, _ => rfl
  | c :: p, u, v => by
    rw [List.cons_append, List.cons_append, lexLtb_cons_same]
    exact lexLtb_append_same p u v

theorem digitChar_lt10 : ∀ (a b : Fin 10),
    a.val < b.val → (Nat.digitChar a.val).toNat < (Nat.digitChar b.val).toNat := by decide

theorem digitChar_inj10 : ∀ (a b : Fin 10),
    Nat.digitChar a.val = Nat.digitChar b.val → a = b := by decide

theorem padChars_lt : ∀ (n k₁ k₂ : Nat) (u v : List Char), k₁ < k₂ → k₂ < 10 ^ n →
    lexLtb (padChars n k₁ ++ u) (padChars n k₂ ++ v) = true := by
  intro n
  induction n with
  | zero => intro k₁ k₂ u v h hb; omega
  | succ n ih =>
    intro k₁ k₂ u v h hb
    have hpos : 0 < 10 ^ n := Nat.pos_pow_of_pos n (by omega)
    have hd₂ : k₂ / 10 ^ n < 10 := by
      rw [Nat.div_lt_iff_lt_mul hpos]
      calc k₂ < 10 ^ (n + 1) := hb
        _ = 10 * 10 ^ n := by rw [pow_succ]; ring
    have hdle : k₁ / 10 ^ n ≤ k₂ / 10 ^ n := Nat.div_le_div_right (Nat.le_of_lt h)
    rcases Nat.lt_or_ge (k₁ / 10 ^ n) (k₂ / 10 ^ n) with hdlt | hdge
    · have hd₁ : k₁ / 10 ^ n < 10 := Nat.lt_of_lt_of_le hdlt (Nat.le_of_lt hd₂)
      have hchar_ne : Nat.digitChar (k₁ / 10 ^ n) ≠ Nat.digitChar (k₂ / 10 ^ n) := by
        intro hc
        have := congrArg Fin.val (digitChar_inj10 ⟨_, hd₁⟩ ⟨_, hd₂⟩ hc)
        exact absurd this (Nat.ne_of_lt hdlt)
      have hchar_lt := digitChar_lt10 ⟨_, hd₁⟩ ⟨_, hd₂⟩ hdlt
      simp only [padChars, List.cons_append, lexLtb, if_neg hchar_ne]
      simpa using hchar_lt
    · have hdeq : k₁ / 10 ^ n = k₂ / 10 ^ n := Nat.le_antisymm hdle hdge
      have hm₁ := Nat.div_add_mod k₁ (10 ^ n)
      have hm₂ := Nat.div_add_mod k₂ (10 ^ n)
      rw [← hdeq] at hm₂
      have hmlt : k₁ % 10 ^ n < k₂ % 10 ^ n := by omega
      have hmb : k₂ % 10 ^ n < 10 ^ n := Nat.mod_lt _ hpos
      simp only [padChars, List.cons_append, hdeq, lexLtb_cons_same]
      exact ih _ _ _ _ hmlt hmb

theorem isoChars_lt {a b : DateTime} (ha : a.bounded) (hb : b.bounded)
    (h : dtLtb a b = true) : lexLtb (isoChars a) (isoChars b) = true := by
  obtain ⟨ha1, ha2, ha3, ha4, ha5, ha6, ha7⟩ := ha
  obtain ⟨hb1, hb2, hb3, hb4, hb5, hb6, hb7⟩ := hb
  unfold dtLtb at h
  unfold isoChars
  by_cases h1 : a.year = b.year
  case neg =>
    rw [if_pos h1] at h
    exact padChars_lt 4 _ _ _ _ (of_decide_eq_true h) hb1
  rw [if_neg (not_not_intro h1)] at h
  rw [h1, lexLtb_append_same, lexLtb_cons_same]
  by_cases h2 : a.month = b.month
  case neg =>
    rw [if_pos h2] at h
    exact padChars_lt 2 _ _ _ _ (of_decide_eq_true h) hb2
  rw [if_neg (not_not_intro h2)] at h
  rw [h2, lexLtb_append_same, lexLtb_cons_same]
  by_cases h3 : a.day = b.day
  case neg =>
    rw [if_pos h3] at h
    exact padChars_lt 2 _ _ _ _ (of_decide_eq_true h) hb3
  rw [if_neg (not_not_intro h3)] at h
  rw [h3, lexLtb_append_same, lexLtb_cons_same]
  by_cases h4 : a.hour = b.hour
  case neg =>
    rw [if_pos h4] at h
    exact padChars_lt 2 _ _ _ _ (of_decide_eq_true h) hb4
  rw [if_neg (not_not_intro h4)] at h
  rw [h4, lexLtb_append_same, lexLtb_cons_same]
  by_cases h5 : a.minute = b.minute
  case neg =>
    rw [if_pos h5] at h
    exact padChars_lt 2 _ _ _ _ (of_decide_eq_true h) hb5
  rw [if_neg (not_not_intro h5)] at h
  rw [h5, lexLtb_append_same, lexLtb_cons_same]
  by_cases h6 : a.second = b.second
  case neg =>
    rw [if_pos h6] at h
    exact padChars_lt 2 _ _ _ _ (of_decide_eq_true h) hb6
  rw [if_neg (not_not_intro h6)] at h
  rw [h6, lexLtb_append_same]
  have hus : a.microsecond < b.microsecond := of_decide_eq_true h
  have hbz : ¬ b.microsecond = 0 := by omega
  rw [if_neg hbz]
  by_cases haz : a.microsecond = 0
  · rw [if_pos haz]
    rfl
  · rw [if_neg haz, lexLtb_cons_same]
    have := padChars_lt 6 _ _ [] [] hus hb7
    simpa using this

theorem filenameChars_lt {a b : DateTime} (ta tb : SignalType)
    (ha : a.bounded) (hb : b.bounded) (h : dtLtb a b = true) :
    lexLtb (filenameChars a ta) (filenameChars b tb) = true := by
  obtain ⟨ha1, ha2, ha3, ha4, ha5, ha6, ha7⟩ := ha
  obtain ⟨hb1, hb2, hb3, hb4, hb5, hb6, hb7⟩ := hb
  unfold dtLtb at h
  unfold filenameChars
  by_cases h1 : a.year = b.year
  case neg =>
    rw [if_pos h1] at h
    exact padChars_lt 4 _ _ _ _ (of_decide_eq_true h) hb1
  rw [if_neg (not_not_intro h1)] at h
  rw [h1, lexLtb_append_same]
  by_cases h2 : a.month = b.month
  case neg =>
    rw [if_pos h2] at h
    exact padChars_lt 2 _ _ _ _ (of_decide_eq_true h) hb2
  rw [if_neg (not_not_intro h2)] at h
  rw [h2, lexLtb_append_same]
  by_cases h3 : a.day = b.day
  case neg =>
    rw [if_pos h3] at h
    exact padChars_lt 2 _ _ _ _ (of_decide_eq_true h) hb3
  rw [if_neg (not_not_intro h3)] at h
  rw [h3, lexLtb_append_same, lexLtb_cons_same]
  by_cases h4 : a.hour = b.hour
  case neg =>
    rw [if_pos h4] at h
    exact padChars_lt 2 _ _ _ _ (of_decide_eq_true h) hb4
  rw [if_neg (not_not_intro h4)] at h
  rw [h4, lexLtb_append_same]
  by_cases h5 : a.minute = b.minute
  case neg =>
    rw [if_pos h5] at h
    exact padChars_lt 2 _ _ _ _ (of_decide_eq_true h) hb5
  rw [if_neg (not_not_intro h5)] at h
  rw [h5, lexLtb_append_same]
  by_cases h6 : a.second = b.second
  case neg =>
    rw [if_pos h6] at h
    exact padChars_lt 2 _ _ _ _ (of_decide_eq_true h) hb6
  rw [if_neg (not_not_intro h6)] at h
  rw [h6, lexLtb_append_same, lexLtb_cons_same]
  exact padChars_lt 6 _ _ _ _ (of_decide_eq_true h) hb7

theorem signal_from_to (s : Signal) : Signal.from_dict s.to_dict = .ok s := by
  obtain ⟨ty, sid, ts, payload⟩ := s
  cases ty <;> rfl

theorem dictSet_append_of_absent (m : List (String × α)) (k : String) (v : α)
    (h : dictGet m k = none) : dictSet m k v = m ++ [(k, v)] := by
  induction m with
  | nil => rfl
  | cons p rest ih =>
    by_cases hp : p.1 = k
    · simp [dictGet, hp] at h
    · simp only [dictGet, if_neg hp] at h
      simp [dictSet, hp, ih h]

theorem dictGet_append_single_ne (m : List (String × α)) (k₀ : String) (v₀ : α)
    (k : String) (h : dictGet m k = none) (hne : k ≠ k₀) :
    dictGet (m ++ [(k₀, v₀)]) k = none := by
  have hne' : ¬(k₀ = k) := fun hh => hne hh.symm
  induction m with
  | nil => simp [dictGet, hne']
  | cons p rest ih =>
    by_cases hp : p.1 = k
    · simp [dictGet, hp] at h
    · simp only [dictGet, if_neg hp] at h
      simpa [dictGet, hp] using ih h

theorem writeAll_dir : ∀ (ws : List WriteReq) (dir : List (String × FileData)),
    (∀ w ∈ ws, dictGet dir (signalFileName w.time w.signal_type) = none) →
    ws.Pairwise (fun w₁ w₂ =>
      signalFileName w₁.time w₁.signal_type ≠ signalFileName w₂.time w₂.signal_type) →
    writeAll dir ws = dir ++ ws.map
      (fun w => (signalFileName w.time w.signal_type,
                 FileData.jsonData (mkSignal w).to_dict)) := by
  intro ws
  induction ws with
  | nil => intro dir _ _; simp [writeAll]
  | cons w rest ih =>
    intro dir habs hpw
    have hw := habs w (List.mem_cons_self _ _)
    have hstep : (write_signal dir w.time w.signal_type w.session_id w.payload).1 =
        dir ++ [(signalFileName w.time w.signal_type,
                 FileData.jsonData (mkSignal w).to_dict)] := by
      simp only [write_signal, mkSignal]
      exact dictSet_append_of_absent _ _ _ hw
    have habs' : ∀ r ∈ rest, dictGet
        (dir ++ [(signalFileName w.time w.signal_type,
                  FileData.jsonData (mkSignal w).to_dict)])
        (signalFileName r.time r.signal_type) = none := by
      intro r hr
      exact dictGet_append_single_ne _ _ _ _
        (habs r (List.mem_cons_of_mem _ hr))
        (fun heq => (List.pairwise_cons.mp hpw).1 r hr heq.symm)
    have := ih _ habs' (List.pairwise_cons.mp hpw).2
    simp only [writeAll, hstep] at *
    rw [this, List.append_assoc]
    rfl

theorem filterMap_parse_written (ws : List WriteReq) :
    (ws.map (fun w => FileData.jsonData (mkSignal w).to_dict)).filterMap
      acceptedSignal = ws.map mkSignal := by
  induction ws with
  | nil => rfl
  | cons w rest ih =>
    simp [acceptedSignal, parse_signal_file, signal_from_to, ih]

theorem pairwise_mem_eq {α : Type _} {R : α → α → Prop} :
    ∀ {l : List α}, List.Pairwise R l → ∀ {a b : α}, a ∈ l → b ∈ l →
      ¬ R a b → ¬ R b a → a = b := by
  intro l hl
  induction hl with
  | nil => intro a b ha _ _ _; exact absurd ha (List.not_mem_nil a)
  | cons hhead _ ih =>
    intro a b ha hb hab hba
    rcases List.mem_cons.mp ha with rfl | ha' <;>
      rcases List.mem_cons.mp hb with rfl | hb'
    · rfl
    · exact absurd (hhead b hb') hab
    · exact absurd (hhead a ha') hba
    · exact ih ha' hb' hab hba

/-- C3: for any sequence of `write_signal` calls into one directory whose
clock readings are strictly increasing (the microsecond-resolution
monotonic naming the spec assumes), `read_signals` — over the directory's
files listed in any order — returns exactly the written signals in the
exact order written; and both the timestamp strings and the generated
file names are strictly increasing in that order, so the
(timestamp, type) ordering of the returned signals agrees with the
lexicographic ordering of the file names. -/
theorem c3_write_read_order :
    ∀ (ws : List WriteReq) (entries : List FileData),
      (∀ w ∈ ws, w.time.bounded) →
      ws.Pairwise (fun w₁ w₂ => dtLtb w₁.time w₂.time = true) →
      entries.Perm ((writeAll [] ws).map (·.2)) →
      read_signals entries = ws.map mkSignal ∧
      ws.Pairwise (fun w₁ w₂ =>
        lexLtb (isoformat w₁.time).data (isoformat w₂.time).data = true ∧
        lexLtb (signalFileName w₁.time w₁.signal_type).data
               (signalFileName w₂.time w₂.signal_type).data = true) := by
  intro ws entries hb hmono hperm
  have hpw : ws.Pairwise (fun w₁ w₂ =>
      lexLtb (isoformat w₁.time).data (isoformat w₂.time).data = true ∧
      lexLtb (signalFileName w₁.time w₁.signal_type).data
             (signalFileName w₂.time w₂.signal_type).data = true) := by
    refine List.Pairwise.imp_of_mem ?_ hmono
    intro w₁ w₂ h₁ h₂ hlt
    exact ⟨isoChars_lt (hb w₁ h₁) (hb w₂ h₂) hlt,
           filenameChars_lt _ _ (hb w₁ h₁) (hb w₂ h₂) hlt⟩
  refine ⟨?_, hpw⟩
  have hfn_ne : ws.Pairwise (fun w₁ w₂ =>
      signalFileName w₁.time w₁.signal_type ≠ signalFileName w₂.time w₂.signal_type) := by
    refine hpw.imp ?_
    intro w₁ w₂ hw heq
    exact lexLtb_ne hw.2 (congrArg String.data heq)
  have hdir := writeAll_dir ws [] (fun w _ => rfl) hfn_ne
  have hmap2 : (writeAll [] ws).map (·.2) =
      ws.map (fun w => FileData.jsonData (mkSignal w).to_dict) := by
    rw [hdir]
    simp [List.map_map]
  have hparsed : (entries.filterMap acceptedSignal).Perm (ws.map mkSignal) := by
    have h₁ := hperm.filterMap acceptedSignal
    rw [hmap2, filterMap_parse_written] at h₁
    exact h₁
  have hstrict : (ws.map mkSignal).Pairwise
      (fun s₁ s₂ : Signal => lexLtb s₁.timestamp.data s₂.timestamp.data = true) := by
    rw [List.pairwise_map]
    exact hpw.imp (fun hw => hw.1)
  have hsorted_w : (ws.map mkSignal).Pairwise tsLe :=
    hstrict.imp (fun hw => lexLtb_asymm hw)
  haveI htot : IsTotal Signal tsLe := ⟨by
    intro s₁ s₂
    cases hc : lexLtb s₂.timestamp.data s₁.timestamp.data with
    | false => exact Or.inl hc
    | true => exact Or.inr (lexLtb_asymm hc)⟩
  haveI htrans : IsTrans Signal tsLe := ⟨by
    intro s₁ s₂ s₃ h₁₂ h₂₃
    unfold tsLe at h₁₂ h₂₃ ⊢
    cases hc : lexLtb s₃.timestamp.data s₁.timestamp.data with
    | false => rfl
    | true =>
      cases hd : lexLtb s₁.timestamp.data s₂.timestamp.data with
      | true =>
        have hx := lexLtb_trans hc hd
        exact absurd hx (by simp [h₂₃])
      | false =>
        have heq := lexLtb_eq_of_both_false h₁₂ hd
        rw [heq] at h₂₃
        exact absurd hc (by simp [h₂₃])⟩
  have hperm₂ : (read_signals entries).Perm (ws.map mkSignal) :=
    (List.perm_insertionSort tsLe _).trans hparsed
  have hsorted_r : (read_signals entries).Pairwise tsLe :=
    List.sorted_insertionSort tsLe (entries.filterMap acceptedSignal)
  refine List.Perm.eq_of_sorted ?_ hsorted_r hsorted_w hperm₂
  intro a b ha hb' hab hba
  have ha' : a ∈ ws.map mkSignal := hperm₂.mem_iff.mp ha
  unfold tsLe at hab hba
  refine pairwise_mem_eq hstrict ha' hb' ?_ ?_
  · intro hr
    exact absurd hr (by simp [hba])
  · intro hr
    exact absurd hr (by simp [hab])

/-- C3 witness: two writes with strictly increasing clock readings,
read back from the directory listed in reverse order. -/
theorem c3_write_read_order_witness :
    read_signals (((writeAll [] c3reqs).map (·.2)).reverse) = c3reqs.map mkSignal ∧
    c3reqs.Pairwise (fun w₁ w₂ =>
      lexLtb (isoformat w₁.time).data (isoformat w₂.time).data = true ∧
      lexLtb (signalFileName w₁.time w₁.signal_type).data
             (signalFileName w₂.time w₂.signal_type).data = true) :=
  c3_write_read_order c3reqs _ (by decide) (by decide)
    (List.reverse_perm _)

end C3

/-! ### C10: `from_markdown` totality and graceful degradation -/

section C10

open Session

theorem askStep_none_of_header_none {l : List Char} (h : askHeader l = none) :
    askStep l = none := by
  simp [askStep, h]

theorem scan_askStep_none : ∀ l : List Char,
    (l.tails.all fun t => (askHeader t).isNone) = true → scan askStep l = none := by
  intro l
  induction l with
  | nil =>
    intro h
    simp only [List.tails, List.all_cons, List.all_nil, Bool.and_true,
      Option.isNone_iff_eq_none] at h
    simp [scan, askStep_none_of_header_none h]
  | cons c t ih =>
    intro h
    rw [List.tails_cons, List.all_cons, Bool.and_eq_true,
      Option.isNone_iff_eq_none] at h
    simp only [scan, askStep_none_of_header_none h.1]
    exact ih h.2

/-- C10: `from_markdown` is total — for every session identifier and
every content string it returns a `SessionSpec`, never an error — and
each field is extracted by its own independent search of the content; in
particular, content with no `ASK USER IF` header anywhere yields
`ask_user_if = []` while every other field is still computed by its own
extractor, exactly as for content that has the section. -/
theorem c10_from_markdown_missing_section :
    ∀ (session_id content : String),
      (content.data.tails.all fun t => (askHeader t).isNone) = true →
      SessionSpec.from_markdown session_id content =
        { session_id := session_id
          title := match scan titleStep content.data with
            | some g => ⟨strip g⟩
            | none => "Session " ++ session_id
          worktree := (scan worktreeStep content.data).getD false
          scope_in := match scan scopeStep content.data with
            | some (g₁, _) => [⟨strip g₁⟩]
            | none => []
          scope_out := match scan scopeStep content.data with
            | some (_, g₂) => [⟨strip g₂⟩]
            | none => []
          start_when := match scan (afterBarStep "**Start When**".data) content.data with
            | some g => ⟨strip g⟩
            | none => ""
          stop_when := match scan (afterBarStep "**Stop When**".data) content.data with
            | some g => ⟨strip g⟩
            | none => ""
          prompt := match scan promptStep content.data with
            | some g => ⟨strip g⟩
            | none => ""
          ask_user_if := []
          exit_criteria := match scan exitStep content.data with
            | some g => parseExitItems g
            | none => []
          git_instructions := match scan gitStep content.data with
            | some g => ⟨strip g⟩
            | none => ""
          handoff := match scan handoffStep content.data with
            | some g => ⟨strip g⟩
            | none => "" } := by
  intro session_id content h
  simp only [SessionSpec.from_markdown, scan_askStep_none content.data h]

set_option maxRecDepth 100000 in
/-- C10 witness: a markdown block with every section except
`ASK USER IF` parses to a spec with `ask_user_if = []` and every other
field populated from its own section. -/
theorem c10_from_markdown_missing_section_witness :
    SessionSpec.from_markdown "1.1" c10content =
      { session_id := "1.1"
        title := "Core State"
        worktree := true
        scope_in := ["state module"]
        scope_out := ["ui"]
        start_when := "plan approved"
        stop_when := "tests pass"
        prompt := "Build the state store."
        ask_user_if := []
        exit_criteria := ["tests green"]
        git_instructions := "git commit -am done"
        handoff := "Notes for next." } :=
  (c10_from_markdown_missing_section "1.1" c10content (by decide)).trans (by decide)

end C10

end FlowForge
